import Mathlib

/-!
A shallow embedding of `src/sort_radar.py` (function `main`) and proofs about it.

Modelling conventions:
* numpy arrays are Lean lists; floating point values are modelled as rationals
  (the claims under study are about shapes, ordering, index bookkeeping and
  masking, none of which hinge on binary floating-point rounding);
* a numpy masked array is a list of rows of `(value, mask)` cells
  (`mask = true` means the gate is invalid);
* `np.argsort` is modelled as a stable argsort (sort by value, ties kept in
  index order), the deterministic reading recommended by the design notes;
  numpy's default introsort is unstable only between exactly-equal azimuths;
* python runtime errors (ValueError / IndexError / NameError raised by numpy
  and scipy) are modelled by `Except Radar`, the error value carrying the
  radar state at the moment the exception is raised, so that claims about
  "no partial output" are expressible;
* `radar.get_gate_x_y_z` is geometry computed by the external pyart library;
  its derived quantity `r = sqrt(x**2 + y**2)` is modelled as a supplied
  per-sweep matrix of per-gate ranges (`gate_r`), exactly the "supplied
  per-gate range vector" interface the design document allows, and it is
  azimuth-independent just as `sqrt(x**2+y**2)` is;
* scipy's `interp1d` is piecewise-linear interpolation with `searchsorted`
  interval lookup, and `interp2d` (a degree-1 spline on the grid) is
  piecewise-bilinear interpolation; both raise when given fewer than two
  sample points, modelled by returning `none`.  Rational division by zero is
  total (`x / 0 = 0`) in Lean; it is only reachable through degenerate
  duplicate interpolation nodes, for which scipy's result is also garbage.
-/

namespace SortRadar

/-- numpy dtype of a field: floating or integer storage precision. -/
inductive Dt where
  | flt : Dt
  | int : Dt
deriving DecidableEq

/-- One gate of a masked array: stored value and invalid flag. -/
abbrev Cell := ℚ × Bool

abbrev MRow := List Cell

/-- A 2-D numpy masked array (rays x gates). -/
abbrev MMat := List MRow

/-- A plain 2-D numpy array. -/
abbrev MatQ := List (List ℚ)

/-- A named radar field: masked data (rays x gates) plus its storage dtype. -/
structure Field where
  data : MMat
  dtype : Dt
deriving DecidableEq

/-- The parts of the pyart `Radar` object read or written by `sort_radar.main`.
`gate_r` holds, per sweep, the matrix `sqrt(x**2 + y**2)` that
`get_gate_x_y_z` would produce (external pyart geometry, see file header). -/
structure Radar where
  sweep_number : List ℕ
  ranges : List ℚ
  azimuth : List ℚ
  elevation : List ℚ
  sweep_start_ray_index : List ℕ
  sweep_end_ray_index : List ℕ
  nrays : ℕ
  unambiguous_range : List ℚ
  gate_r : List MatQ
  fields : List (String × Field)
deriving DecidableEq

instance {ε α : Type} [DecidableEq ε] [DecidableEq α] : DecidableEq (Except ε α)
  | .error x, .error y =>
    if h : x = y then isTrue (h ▸ rfl) else isFalse (fun hc => h (Except.error.inj hc))
  | .error _, .ok _ => isFalse (fun hc => Except.noConfusion hc)
  | .ok _, .error _ => isFalse (fun hc => Except.noConfusion hc)
  | .ok x, .ok y =>
    if h : x = y then isTrue (h ▸ rfl) else isFalse (fun hc => h (Except.ok.inj hc))

/-- numpy `astype` to an integer dtype truncates toward zero. -/
def truncQ (q : ℚ) : ℚ := if 0 ≤ q then ((⌊q⌋ : ℤ) : ℚ) else ((⌈q⌉ : ℤ) : ℚ)

/-- `astype(dtype)` on one value. -/
def castQ (d : Dt) (q : ℚ) : ℚ :=
  match d with
  | .flt => q
  | .int => truncQ q

/-- Lines 39-47 / 91-93 / 103-104: `if a.shape[0] == 361: a = np.delete(a, [-1], axis=0)`.
The rule is shape-literal: only length exactly 361 drops the trailing entry. -/
def dedup361 {α : Type} (xs : List α) : List α :=
  if xs.length = 361 then xs.dropLast else xs

/-- Python slice `xs[a:b]`. -/
def slice {α : Type} (xs : List α) (a b : ℕ) : List α := (xs.drop a).take (b - a)

/-- `radar.get_slice(s)` applied to the flat azimuth array:
`azimuth['data'][start_ray_index[s] : end_ray_index[s] + 1]`. -/
def azSlice (v : Radar) (s : ℕ) : List ℚ :=
  slice v.azimuth (v.sweep_start_ray_index.getD s 0) (v.sweep_end_ray_index.getD s 0 + 1)

/-- The per-sweep slice of the flat elevation array. -/
def eleSlice (v : Radar) (s : ℕ) : List ℚ :=
  slice v.elevation (v.sweep_start_ray_index.getD s 0) (v.sweep_end_ray_index.getD s 0 + 1)

/-- The per-sweep slice of the flat unambiguous-range array. -/
def unambSlice (v : Radar) (s : ℕ) : List ℚ :=
  slice v.unambiguous_range (v.sweep_start_ray_index.getD s 0) (v.sweep_end_ray_index.getD s 0 + 1)

/-- Line 99: the per-sweep unambiguous range scalar is the first entry of the
sweep's slice of `instrument_parameters['unambiguous_range']['data']`. -/
def maxRangeOf (v : Radar) (s : ℕ) : ℚ := (unambSlice v s).headD 0

/-- `radar.get_field(s, name)`: the per-sweep slice of a field's rows. -/
def fieldSlice (fdata : MMat) (v : Radar) (s : ℕ) : MMat :=
  slice fdata (v.sweep_start_ray_index.getD s 0) (v.sweep_end_ray_index.getD s 0 + 1)

/-- Lexicographic order on (value, original index) pairs: the stable argsort order. -/
def lexLe (a b : ℚ × ℕ) : Prop := a.1 < b.1 ∨ (a.1 = b.1 ∧ a.2 ≤ b.2)

instance : DecidableRel lexLe := fun a b => by
  unfold lexLe
  infer_instance

instance : IsTotal (ℚ × ℕ) lexLe := by
  constructor
  intro a b
  rcases lt_trichotomy a.1 b.1 with h | h | h
  · exact Or.inl (Or.inl h)
  · rcases Nat.le_total a.2 b.2 with h2 | h2
    · exact Or.inl (Or.inr ⟨h, h2⟩)
    · exact Or.inr (Or.inr ⟨h.symm, h2⟩)
  · exact Or.inr (Or.inl h)

instance : IsTrans (ℚ × ℕ) lexLe := by
  constructor
  intro a b c hab hbc
  rcases hab with h1 | ⟨e1, l1⟩
  · rcases hbc with h2 | ⟨e2, _⟩
    · exact Or.inl (h1.trans h2)
    · exact Or.inl (e2 ▸ h1)
  · rcases hbc with h2 | ⟨e2, l2⟩
    · exact Or.inl (e1 ▸ h2)
    · exact Or.inr ⟨e1.trans e2, l1.trans l2⟩

/-- The (value, index) pairs of a list. -/
def idxPairs (xs : List ℚ) : List (ℚ × ℕ) :=
  (List.range xs.length).map (fun i => (xs.getD i 0, i))

/-- `np.argsort(xs)`: indices that sort `xs` ascending (stable tie behavior). -/
def argsort (xs : List ℚ) : List ℕ :=
  (List.insertionSort lexLe (idxPairs xs)).map (fun p => p.2)

/-- numpy fancy indexing `xs[idx]` on a 1-D array. -/
def permute (xs : List ℚ) (idx : List ℕ) : List ℚ := idx.map (fun i => xs.getD i 0)

/-- numpy fancy indexing `a[idx]` on the rows of a 2-D masked array. -/
def permuteRows (a : MMat) (idx : List ℕ) : MMat := idx.map (fun i => a.getD i [])

/-- `np.arange(a, n, k)` on naturals (the `np.int32` dtype is immaterial at
these magnitudes). Step `0` raises in numpy; callers guard it. -/
def arange (a n k : ℕ) : List ℕ :=
  if k = 0 then [] else (List.range ((n - a + k - 1) / k)).map (fun i => a + i * k)

/-- `np.linspace(a, b, m)`: `m` evenly spaced samples from `a` to `b` inclusive. -/
def linspace (a b : ℚ) (m : ℕ) : List ℚ :=
  if m = 0 then []
  else if m = 1 then [a]
  else (List.range m).map (fun i : ℕ => a + (b - a) * (i : ℚ) / ((m : ℚ) - 1))

/-- `np.resize(xs, m)`: cyclic repetition of the samples to length `m`. -/
def npResize (xs : List ℚ) (m : ℕ) : List ℚ :=
  (List.range m).map (fun i => xs.getD (i % xs.length) 0)

/-- Round half to even on rationals (numpy's rounding rule). -/
def roundHE (q : ℚ) : ℤ :=
  if q - ⌊q⌋ < 1/2 then ⌊q⌋
  else if 1/2 < q - ⌊q⌋ then ⌊q⌋ + 1
  else if ⌊q⌋ % 2 = 0 then ⌊q⌋ else ⌊q⌋ + 1

/-- `np.round(q, 3)`. -/
def round3 (q : ℚ) : ℚ := ((roundHE (q * 1000) : ℤ) : ℚ) / 1000

/-- scipy interval lookup: `searchsorted` result clipped to `[1, len-1]`;
the interpolation interval is `[idx-1, idx]`. -/
def findIdx1 (x : List ℚ) (q : ℚ) : ℕ :=
  min (max (x.countP (fun t => decide (t < q))) 1) (x.length - 1)

/-- `scipy.interpolate.interp1d(x, y, axis=0)` evaluated at the queries `qs`:
piecewise-linear interpolation of each column of `y` over `x`. -/
def interp1d (x : List ℚ) (y : MatQ) (qs : List ℚ) : MatQ :=
  qs.map (fun q =>
    let i := findIdx1 x q
    let x0 := x.getD (i - 1) 0
    let x1 := x.getD i 0
    ((y.getD (i - 1) []).zip (y.getD i [])).map
      (fun p => p.1 + (p.2 - p.1) * (q - x0) / (x1 - x0)))

/-- `scipy.interpolate.interp2d(x, y, z)` (a degree-1 spline, i.e. piecewise
bilinear on the grid) evaluated on the query grid `xq` x `yq`; the result has
shape `(yq.length, xq.length)`. The masked input's mask is dropped
(`interp2d` reads the raw data), matching line 114. -/
def interp2dEval (x y : List ℚ) (z : MatQ) (xq yq : List ℚ) : MatQ :=
  yq.map (fun qy =>
    let j := findIdx1 y qy
    let y0 := y.getD (j - 1) 0
    let y1 := y.getD j 0
    let row0 := z.getD (j - 1) []
    let row1 := z.getD j []
    let t := (qy - y0) / (y1 - y0)
    xq.map (fun qx =>
      let i := findIdx1 x qx
      let x0 := x.getD (i - 1) 0
      let x1 := x.getD i 0
      let u := (qx - x0) / (x1 - x0)
      (1 - t) * ((1 - u) * (row0.getD (i - 1) 0) + u * (row0.getD i 0)) +
        t * ((1 - u) * (row1.getD (i - 1) 0) + u * (row1.getD i 0))))

/-- Underlying data of a masked row. -/
def rowData (r : MRow) : List ℚ := r.map (fun c => c.1)

/-- Underlying data of a masked matrix (`np.asarray`, mask dropped). -/
def matData (a : MMat) : MatQ := a.map rowData

/-- Wrap a plain array as a masked array with an all-false mask. -/
def toMasked (a : MatQ) : MMat := a.map (fun row => row.map (fun q => (q, false)))

/-- Line 119: `np.ma.masked_where(r >= max_range, a)` — or the condition into
the mask, preserving data. -/
def maskGe (r : MatQ) (mr : ℚ) (a : MMat) : MMat :=
  a.enum.map (fun p =>
    p.2.enum.map (fun c => (c.2.1, c.2.2 || decide (mr ≤ (r.getD p.1 []).getD c.1 0))))

/-- The data of the unmasked gates of a masked array. -/
def unmaskedVals (a : MMat) : List ℚ :=
  (a.flatten.filter (fun c => !c.2)).map (fun c => c.1)

/-- `a.min()` of a masked array: minimum over unmasked gates.  A fully masked
array yields `np.ma.masked` in numpy; the default `0` here is never consumed,
because `masked_equal` below only acts on unmasked gates. -/
def mmin (a : MMat) : ℚ :=
  match unmaskedVals a with
  | [] => 0
  | h :: t => t.foldl min h

/-- `np.ma.masked_equal(a, m)`: additionally mask every gate whose data equals `m`. -/
def maskEq (a : MMat) (m : ℚ) : MMat :=
  a.map (fun row => row.map (fun c => (c.1, c.2 || decide (c.1 = m))))

/-- Lines 122 and 133: `np.ma.masked_equal(a, a.min())`. -/
def maskEqMin (a : MMat) : MMat := maskEq a (mmin a)

/-- `a.astype(dtype)` on a masked array: cast the data, keep the mask. -/
def castMat (d : Dt) (a : MMat) : MMat :=
  a.map (fun row => row.map (fun c => (castQ d c.1, c.2)))

/-- Lines 50-51: the sorted (de-duplicated) azimuth array of one sweep. -/
def azSorted (v : Radar) (s : ℕ) : List ℚ :=
  permute (dedup361 (azSlice v s)) (argsort (dedup361 (azSlice v s)))

/-- Line 52: the elevation array of one sweep reordered by the azimuth sort. -/
def eleSorted (v : Radar) (s : ℕ) : List ℚ :=
  permute (dedup361 (eleSlice v s)) (argsort (dedup361 (azSlice v s)))

/-- Lines 33-65, one sweep of the grid-building loop, given the reference
azimuth array `af` (`azimuth_final`): de-duplicate, argsort, and either keep
the sorted grids (shape match) or synthesize `linspace` azimuths, `np.resize`
elevations and an `arange` index row (shape mismatch).  `none` models the
IndexError `az_sorted[0]` raises on an empty mismatching sweep. -/
def gridRow (v : Radar) (af : List ℚ) (s : ℕ) :
    Option (List ℚ × List ℚ × List ℕ) :=
  if (azSorted v s).length ≠ af.length then
    if (azSorted v s).isEmpty then none
    else
      some (linspace ((azSorted v s).headD 0) ((azSorted v s).getLastD 0) af.length,
        npResize (eleSorted v s) af.length, List.range af.length)
  else some (azSorted v s, eleSorted v s, argsort (dedup361 (azSlice v s)))

/-- Accumulator of the sweep loop: `azimuth_final` (line 56) plus the stacked
`az_final`, `ele_final`, `idx_final` rows (lines 67-76; `idx_final` is built
by the source but never consumed afterwards). -/
structure GridAcc where
  afinal : Option (List ℚ)
  azRows : List (List ℚ)
  eleRows : List (List ℚ)
  idxRows : List (List ℕ)

/-- One iteration of the sweep loop (lines 31-76).  `azimuth_final` is
(re)bound whenever `sweep == sweep_min`; reading it unset is the NameError a
volume whose first sweep is not the minimum would raise, modelled as `none`.
On `sweep == sweep_min` the stacks are restarted (lines 68-71). -/
def sweepStep (v : Radar) (smin : ℕ) (acc : GridAcc) (s : ℕ) : Option GridAcc :=
  let afin := if s = smin then some (dedup361 (azSlice v s)) else acc.afinal
  match afin with
  | none => none
  | some af =>
    match gridRow v af s with
    | none => none
    | some t =>
      if s = smin then some ⟨some af, [t.1], [t.2.1], [t.2.2]⟩
      else some ⟨some af, acc.azRows ++ [t.1], acc.eleRows ++ [t.2.1],
        acc.idxRows ++ [t.2.2]⟩

/-- The whole sweep loop (lines 31-76). -/
def sweepLoop (v : Radar) (smin : ℕ) : Option GridAcc :=
  List.foldlM (sweepStep v smin) ⟨none, [], [], []⟩ v.sweep_number

/-- Line 91-93 applied to the field slice: drop the last ray when the raw
field slice has 361 rows. -/
def fieldSliceD (fdata : MMat) (v : Radar) (s : ℕ) : MMat :=
  if (fieldSlice fdata v s).length = 361 then (fieldSlice fdata v s).dropLast
  else (fieldSlice fdata v s)

/-- Lines 83-92: the per-gate range matrix `sqrt(x**2+y**2)` of the sweep,
with its last ray dropped when the raw FIELD slice has 361 rows (the source
keys both deletions on the field's shape). -/
def gateRD (v : Radar) (fdata : MMat) (s : ℕ) : MatQ :=
  if (fieldSlice fdata v s).length = 361 then (v.gate_r.getD s []).dropLast
  else (v.gate_r.getD s [])

/-- Line 108: the field rows reordered by the azimuth-sort permutation. -/
def fieldSorted (v : Radar) (fdata : MMat) (s : ℕ) : MMat :=
  permuteRows (fieldSliceD fdata v s) (argsort (dedup361 (azSlice v s)))

/-- Lines 83-119 for one field and one sweep, up to and including the
unambiguous-range masking; returns the range matrix actually compared against
`max_range` together with the masked field array.  `none` models scipy's
"at least two sample points" errors.  Note the source interpolates the raw
(unsorted) deduplicated `r` over the sorted azimuths, and `interp2d` drops
the input mask. -/
def resampleCore (v : Radar) (azRows : List (List ℚ)) (fdata : MMat)
    (refLen : ℕ) (s : ℕ) : Option (MatQ × MMat) :=
  if (fieldSliceD fdata v s).length ≠ refLen then
    if (azSorted v s).length < 2 ∨ v.ranges.length < 2 then none
    else
      some (interp1d (azSorted v s) (gateRD v fdata s) (azRows.getD s []),
        maskGe (interp1d (azSorted v s) (gateRD v fdata s) (azRows.getD s []))
          (maxRangeOf v s)
          (toMasked ((interp2dEval v.ranges (azSorted v s)
            (matData (fieldSorted v fdata s)) v.ranges (azRows.getD s [])).map
            (fun row => row.map round3))))
  else
    some (gateRD v fdata s,
      maskGe (gateRD v fdata s) (maxRangeOf v s) (fieldSorted v fdata s))

/-- Lines 83-122: one field, one sweep, through the minimum-value masking. -/
def resampleSweep (v : Radar) (azRows : List (List ℚ)) (fdata : MMat)
    (refLen : ℕ) (s : ℕ) : Option MMat :=
  (resampleCore v azRows fdata refLen s).map (fun p => maskEqMin p.2)

/-- One iteration of the inner sweep loop of the field loop, stacking the
per-sweep arrays (lines 124-129; the stack restarts at `sweep == sweep_min`). -/
def fieldStep (v : Radar) (smin : ℕ) (azRows : List (List ℚ)) (fdata : MMat)
    (acc : List MMat) (s : ℕ) : Option (List MMat) :=
  match resampleSweep v azRows fdata (azRows.headD []).length s with
  | none => none
  | some m => some (if s = smin then [m] else acc ++ [m])

/-- Lines 81-133 for one field: resample every sweep, stack
(`np.ma.vstack` of the 3-D stack concatenates the per-sweep blocks back into
a 2-D rays x gates array), cast to the field's dtype, and re-apply the
minimum-value masking volume-wide. -/
def processField (v : Radar) (smin : ℕ) (azRows : List (List ℚ)) (fld : Field) :
    Option Field :=
  match List.foldlM (fieldStep v smin azRows fld.data) [] v.sweep_number with
  | none => none
  | some mats => some ⟨maskEqMin (castMat fld.dtype mats.flatten), fld.dtype⟩

/-- Overwrite the data of every entry named `nm` (dict update; names are
unique in a python dict). -/
def setFieldData (fs : List (String × Field)) (nm : String) (fld : Field) :
    List (String × Field) :=
  fs.map (fun p => if p.1 = nm then (nm, fld) else p)

/-- The field loop (lines 79-133): iterate over the snapshot of the field
names, writing each processed field back into the radar; the trailing
`field_type` local (line 88) is threaded through, as line 136 reuses it after
the loop.  An error carries the radar with the previously completed fields
already written, as in python. -/
def fieldLoop (v : Radar) (smin : ℕ) (azRows : List (List ℚ)) :
    List (String × Field) → Radar → Option Dt → Except Radar (Radar × Option Dt)
  | [], r, dt => .ok (r, dt)
  | (nm, fld) :: rest, r, _dt =>
    match processField v smin azRows fld with
    | none => .error r
    | some fld2 =>
      fieldLoop v smin azRows rest
        { r with fields := setFieldData r.fields nm fld2 } (some fld.dtype)

/-- Lines 136-142: overwrite azimuth, elevation and `nrays`, then recompute
the ray index tables.  `np.arange(0, nrays, 0)` raises (step zero), and
`sweep_start_ray_index['data'][1]` raises IndexError when fewer than two
entries exist; both errors carry the state mutated so far. -/
def mainFinish (v1 : Radar) (dt : Dt) (acc : GridAcc) : Except Radar Radar :=
  let az := acc.azRows.flatten.map (castQ dt)
  let v2 := { v1 with
    azimuth := az
    elevation := acc.eleRows.flatten.map (castQ dt)
    nrays := az.length }
  let k := (acc.azRows.headD []).length
  if k = 0 then .error v2
  else
    let st := arange 0 az.length k
    let v3 := { v2 with sweep_start_ray_index := st }
    if st.length < 2 then .error v3
    else .ok { v3 with sweep_end_ray_index := arange (st.getD 1 0 - 1) az.length k }

/-- Lines 79-142 given the grid accumulator: run the field loop; reading the
loop-variable `field_type` with no field processed is the NameError of
line 136 on a field-less radar. -/
def mainFields (v : Radar) (smin : ℕ) (acc : GridAcc) : Except Radar Radar :=
  match fieldLoop v smin acc.azRows v.fields v none with
  | .error r => .error r
  | .ok (v1, none) => .error v1
  | .ok (v1, some dt) => mainFinish v1 dt acc

/-- Lines 31-142 after `sweep_min` is known. -/
def mainSweeps (v : Radar) (smin : ℕ) : Except Radar Radar :=
  match sweepLoop v smin with
  | none => .error v
  | some acc => mainFields v smin acc

/-- `sort_radar.main`.  `np.min(sweep_number)` on an empty volume raises
before anything is touched (the error carries the unmodified radar). -/
def main (v : Radar) : Except Radar Radar :=
  match v.sweep_number with
  | [] => .error v
  | s0 :: rest => mainSweeps v (rest.foldl min s0)

/-- The resulting radar of a run, on error the state at the failure point. -/
def mainOut (v : Radar) : Radar :=
  match main v with
  | .ok r => r
  | .error r => r

/-- dtype of the last processed field: the value the loop variable
`field_type` holds after the field loop. -/
def lastDtype (v : Radar) : Dt :=
  (v.fields.getLast?.map (fun p => p.2.dtype)).getD .flt

/-- `mapM` over `Option`, written out for easy unfolding in proofs. -/
def seqMap {α : Type} (f : ℕ → Option α) : List ℕ → Option (List α)
  | [] => some []
  | s :: rest =>
    match f s with
    | none => none
    | some a =>
      match seqMap f rest with
      | none => none
      | some as1 => some (a :: as1)

/-- The reference (lowest-sweep) azimuth grid of a volume whose sweeps are
numbered `0, 1, ...`: the de-duplicated azimuth slice of sweep 0. -/
def refAz (v : Radar) : List ℚ := dedup361 (azSlice v 0)

/-- Cell of a masked matrix at (row, col), defaulting to an unmasked zero. -/
def cellAt (a : MMat) (i j : ℕ) : Cell := (a.getD i []).getD j (0, false)

/-- Entry of a plain matrix at (row, col). -/
def entryAt (a : MatQ) (i j : ℕ) : ℚ := (a.getD i []).getD j 0

/-- Well-formedness of an input volume, the internal consistency the design
document assumes the ingestion collaborator guarantees: sweeps numbered
`0..n-1`, flat per-ray arrays of a common length and rectangular fields whose
gate count is the range-grid length. -/
def WF (v : Radar) (n : ℕ) : Prop :=
  v.sweep_number = List.range n ∧
  v.elevation.length = v.azimuth.length ∧
  v.unambiguous_range.length = v.azimuth.length ∧
  (∀ p ∈ v.fields, p.2.data.length = v.azimuth.length ∧
    ∀ row ∈ p.2.data, row.length = v.ranges.length) ∧
  (v.fields.map Prod.fst).Nodup

instance (v : Radar) (n : ℕ) : Decidable (WF v n) := by
  unfold WF
  infer_instance

/-- A small well-formed volume that `main` completes on: two sweeps of two
rays, two gates, one float field, everything within unambiguous range. -/
def Wok : Radar :=
  { sweep_number := [0, 1]
    ranges := [1, 2]
    azimuth := [10, 20, 10, 20]
    elevation := [1, 1, 2, 2]
    sweep_start_ray_index := [0, 2]
    sweep_end_ray_index := [1, 3]
    nrays := 4
    unambiguous_range := [100, 100, 100, 100]
    gate_r := [[[1, 2], [1, 2]], [[1, 2], [1, 2]]]
    fields := [("Z", ⟨[[(5, false), (6, false)], [(7, false), (8, false)],
      [(5, false), (6, false)], [(7, false), (8, false)]], .flt⟩)] }

/-- A volume with a gate at computed range `R - 1` (99, unambiguous range 100)
holding the sweep minimum value 5: the minimum-value sentinel masks it. -/
def Wc4 : Radar :=
  { sweep_number := [0, 1]
    ranges := [1, 2]
    azimuth := [10, 20, 10, 20]
    elevation := [1, 1, 2, 2]
    sweep_start_ray_index := [0, 2]
    sweep_end_ray_index := [1, 3]
    nrays := 4
    unambiguous_range := [100, 100, 100, 100]
    gate_r := [[[99, 101], [50, 50]], [[50, 50], [50, 50]]]
    fields := [("Z", ⟨[[(5, false), (7, false)], [(6, false), (8, false)],
      [(5, false), (6, false)], [(7, false), (8, false)]], .flt⟩)] }

/-- An empty volume (zero sweeps). -/
def W0 : Radar :=
  { sweep_number := []
    ranges := [1, 2]
    azimuth := []
    elevation := []
    sweep_start_ray_index := []
    sweep_end_ray_index := []
    nrays := 0
    unambiguous_range := []
    gate_r := []
    fields := [("Z", ⟨[], .flt⟩)] }

/-- A single-sweep volume. -/
def W1 : Radar :=
  { sweep_number := [0]
    ranges := [1, 2]
    azimuth := [10, 20]
    elevation := [1, 1]
    sweep_start_ray_index := [0]
    sweep_end_ray_index := [1]
    nrays := 2
    unambiguous_range := [100, 100]
    gate_r := [[[1, 2], [1, 2]]]
    fields := [("Z", ⟨[[(5, false), (6, false)], [(7, false), (8, false)]], .flt⟩)] }

/-- Data of the first field of a radar. -/
def headFieldData (v : Radar) : MMat := (v.fields.headD ("", ⟨[], .flt⟩)).2.data

/-- Like `Wok` but with fractional azimuths and an integer-dtype field, so the
final `astype` truncates the azimuth and elevation angles. -/
def Wint : Radar :=
  { sweep_number := [0, 1]
    ranges := [1, 2]
    azimuth := [Rat.mk' 21 2, 20, Rat.mk' 21 2, 20]
    elevation := [Rat.mk' 3 2, Rat.mk' 3 2, 2, 2]
    sweep_start_ray_index := [0, 2]
    sweep_end_ray_index := [1, 3]
    nrays := 4
    unambiguous_range := [100, 100, 100, 100]
    gate_r := [[[1, 2], [1, 2]], [[1, 2], [1, 2]]]
    fields := [("Z", ⟨[[(5, false), (6, false)], [(7, false), (8, false)],
      [(5, false), (6, false)], [(7, false), (8, false)]], .int⟩)] }

/-! ## Basic list lemmas -/

theorem map_getD_range {α : Type} (d : α) (xs : List α) :
    (List.range xs.length).map (fun i => xs.getD i d) = xs := by
  induction xs with
  | nil => rfl
  | cons x xs ih =>
    rw [List.length_cons, List.range_succ_eq_map, List.map_cons, List.map_map]
    refine congrArg₂ _ rfl ?_
    calc (List.range xs.length).map ((fun i => (x :: xs).getD i d) ∘ Nat.succ)
        = (List.range xs.length).map (fun i => xs.getD i d) := by
          refine List.map_congr_left (fun i _ => ?_)
          simp [Function.comp, List.getD_cons_succ]
      _ = xs := ih

theorem getD_lt_mem {α : Type} {xs : List α} {i : ℕ} (d : α) (h : i < xs.length) :
    xs.getD i d ∈ xs := by
  rw [List.getD_eq_getElem?_getD, List.getElem?_eq_getElem h]
  exact List.getElem_mem h

theorem getD_of_lt {α : Type} (xs : List α) {i : ℕ} (d : α) (h : i < xs.length) :
    xs.getD i d = xs.get ⟨i, h⟩ := by
  rw [List.getD_eq_getElem?_getD, List.getElem?_eq_getElem h]
  rfl

theorem foldl_min_zero : ∀ l : List ℕ, l.foldl min 0 = 0 := by
  intro l
  induction l with
  | nil => rfl
  | cons a l ih => rw [List.foldl_cons, Nat.zero_min, ih]

theorem flatten_length_uniform {α : Type} {rows : List (List α)} {K : ℕ}
    (h : ∀ r ∈ rows, r.length = K) : rows.flatten.length = rows.length * K := by
  induction rows with
  | nil => simp
  | cons r rows ih =>
    rw [List.flatten_cons, List.length_append, List.length_cons,
      h r (List.mem_cons_self r rows), ih (fun q hq => h q (List.mem_cons_of_mem r hq))]
    ring

theorem drop_flatten_uniform {α : Type} {K : ℕ} :
    ∀ {rows : List (List α)}, (∀ r ∈ rows, r.length = K) →
    ∀ s, (rows.flatten.drop (s * K)) = (rows.drop s).flatten := by
  intro rows
  induction rows with
  | nil => intro _ s; simp
  | cons r rows ih =>
    intro h s
    cases s with
    | zero => simp
    | succ s =>
      have hr : r.length = K := h r (List.mem_cons_self r rows)
      have e : (s + 1) * K = r.length + s * K := by rw [hr]; ring
      rw [List.flatten_cons, e, List.drop_append, List.drop_succ_cons,
        ih (fun q hq => h q (List.mem_cons_of_mem r hq)) s]

theorem slice_flatten_uniform {α : Type} {rows : List (List α)} {K : ℕ}
    (h : ∀ r ∈ rows, r.length = K) {s : ℕ} (hs : s < rows.length) :
    slice rows.flatten (s * K) (s * K + K) = rows.getD s [] := by
  unfold slice
  rw [Nat.add_sub_cancel_left, drop_flatten_uniform h s,
    List.drop_eq_getElem_cons hs, List.flatten_cons,
    List.take_left' (h _ (List.getElem_mem hs)),
    List.getD_eq_getElem?_getD, List.getElem?_eq_getElem hs]
  rfl

/-! ## argsort lemmas -/

theorem length_argsort (xs : List ℚ) : (argsort xs).length = xs.length := by
  unfold argsort idxPairs
  rw [List.length_map, List.length_insertionSort, List.length_map, List.length_range]

theorem mem_idxPairs {xs : List ℚ} {p : ℚ × ℕ} (h : p ∈ idxPairs xs) :
    p.2 < xs.length ∧ p.1 = xs.getD p.2 0 := by
  unfold idxPairs at h
  obtain ⟨i, hi, rfl⟩ := List.mem_map.1 h
  exact ⟨List.mem_range.1 hi, rfl⟩

theorem mem_argsort_lt {xs : List ℚ} {i : ℕ} (h : i ∈ argsort xs) : i < xs.length := by
  unfold argsort at h
  obtain ⟨p, hp, rfl⟩ := List.mem_map.1 h
  exact (mem_idxPairs ((List.mem_insertionSort lexLe).1 hp)).1

theorem permute_argsort_eq_map (xs : List ℚ) :
    permute xs (argsort xs) =
      (List.insertionSort lexLe (idxPairs xs)).map (fun p => p.1) := by
  unfold permute argsort
  rw [List.map_map]
  refine List.map_congr_left (fun p hp => ?_)
  exact ((mem_idxPairs ((List.mem_insertionSort lexLe).1 hp)).2).symm

theorem sorted_permute_argsort (xs : List ℚ) :
    List.Sorted (· ≤ ·) (permute xs (argsort xs)) := by
  rw [permute_argsort_eq_map]
  refine List.Pairwise.map _ ?_ (List.sorted_insertionSort lexLe (idxPairs xs))
  intro a b hab
  rcases hab with h | ⟨h, _⟩
  · exact le_of_lt h
  · exact le_of_eq h

theorem sorted_getD_mono {xs : List ℚ} (h : List.Sorted (· ≤ ·) xs) {i j : ℕ}
    (hij : i ≤ j) (hj : j < xs.length) : xs.getD i 0 ≤ xs.getD j 0 := by
  rcases Nat.lt_or_ge i j with hlt | hge
  · rw [getD_of_lt xs 0 (lt_trans hlt hj), getD_of_lt xs 0 hj]
    exact h.rel_get_of_lt hlt
  · have : i = j := le_antisymm hij hge
    rw [this]

theorem idxPairs_sorted {xs : List ℚ} (h : List.Sorted (· ≤ ·) xs) :
    List.Sorted lexLe (idxPairs xs) := by
  unfold idxPairs
  rw [List.Sorted, List.pairwise_map]
  refine List.Pairwise.imp_of_mem ?_ (List.pairwise_lt_range xs.length)
  intro i j hi hj hij
  have hjlen : j < xs.length := List.mem_range.1 hj
  rcases lt_or_eq_of_le (sorted_getD_mono h (le_of_lt hij) hjlen) with hv | hv
  · exact Or.inl hv
  · exact Or.inr ⟨hv, le_of_lt hij⟩

theorem argsort_of_sorted {xs : List ℚ} (h : List.Sorted (· ≤ ·) xs) :
    argsort xs = List.range xs.length := by
  unfold argsort
  rw [(idxPairs_sorted h).insertionSort_eq]
  unfold idxPairs
  rw [List.map_map]
  calc (List.range xs.length).map ((fun p => p.2) ∘ fun i => (xs.getD i 0, i))
      = (List.range xs.length).map id := List.map_congr_left (fun i _ => rfl)
    _ = List.range xs.length := List.map_id _

theorem permute_range (xs : List ℚ) : permute xs (List.range xs.length) = xs :=
  map_getD_range 0 xs

theorem permuteRows_range (a : MMat) : permuteRows a (List.range a.length) = a :=
  map_getD_range [] a

theorem length_permute (xs : List ℚ) (idx : List ℕ) :
    (permute xs idx).length = idx.length := List.length_map idx _

theorem length_permuteRows (a : MMat) (idx : List ℕ) :
    (permuteRows a idx).length = idx.length := List.length_map idx _

/-! ## seqMap lemmas -/

theorem seqMap_length {α : Type} (f : ℕ → Option α) :
    ∀ {l : List ℕ} {as : List α}, seqMap f l = some as → as.length = l.length := by
  intro l
  induction l with
  | nil =>
    intro as h
    simp only [seqMap] at h
    injection h with h
    rw [← h]
    rfl
  | cons s l ih =>
    intro as h
    simp only [seqMap] at h
    cases hf : f s with
    | none => rw [hf] at h; exact Option.noConfusion h
    | some a =>
      rw [hf] at h
      cases hm : seqMap f l with
      | none => rw [hm] at h; exact Option.noConfusion h
      | some bs =>
        rw [hm] at h
        injection h with h
        rw [← h, List.length_cons, List.length_cons, ih hm]

theorem seqMap_mem {α : Type} (f : ℕ → Option α) :
    ∀ {l : List ℕ} {as : List α}, seqMap f l = some as →
      ∀ a ∈ as, ∃ s ∈ l, f s = some a := by
  intro l
  induction l with
  | nil =>
    intro as h a ha
    simp only [seqMap] at h
    injection h with h
    rw [← h] at ha
    exact absurd ha (List.not_mem_nil a)
  | cons s l ih =>
    intro as h a ha
    simp only [seqMap] at h
    cases hf : f s with
    | none => rw [hf] at h; exact Option.noConfusion h
    | some b =>
      rw [hf] at h
      cases hm : seqMap f l with
      | none => rw [hm] at h; exact Option.noConfusion h
      | some bs =>
        rw [hm] at h
        injection h with h
        rw [← h] at ha
        rcases List.mem_cons.1 ha with rfl | ha
        · exact ⟨s, List.mem_cons_self s l, hf⟩
        · obtain ⟨u, hu, hfu⟩ := ih hm a ha
          exact ⟨u, List.mem_cons_of_mem s hu, hfu⟩

theorem seqMap_getD {α : Type} (f : ℕ → Option α) :
    ∀ {l : List ℕ} {as : List α}, seqMap f l = some as →
      ∀ i, i < l.length → ∀ d : α, f (l.getD i 0) = some (as.getD i d) := by
  intro l
  induction l with
  | nil => intro as _ i hi; exact absurd hi (by simp)
  | cons s l ih =>
    intro as h i hi d
    simp only [seqMap] at h
    cases hf : f s with
    | none => rw [hf] at h; exact Option.noConfusion h
    | some b =>
      rw [hf] at h
      cases hm : seqMap f l with
      | none => rw [hm] at h; exact Option.noConfusion h
      | some bs =>
        rw [hm] at h
        injection h with h
        rw [← h]
        cases i with
        | zero => rw [List.getD_cons_zero, List.getD_cons_zero]; exact hf
        | succ i =>
          rw [List.getD_cons_succ, List.getD_cons_succ]
          exact ih hm i (by simpa using hi) d

/-! ## numeric helper lemmas -/

theorem linspace_length (a b : ℚ) (m : ℕ) : (linspace a b m).length = m := by
  unfold linspace
  by_cases h0 : m = 0
  · rw [if_pos h0, h0]; rfl
  · rw [if_neg h0]
    by_cases h1 : m = 1
    · rw [if_pos h1, h1]; rfl
    · rw [if_neg h1, List.length_map, List.length_range]

theorem npResize_length (xs : List ℚ) (m : ℕ) : (npResize xs m).length = m := by
  unfold npResize
  rw [List.length_map, List.length_range]

theorem linspace_sorted {a b : ℚ} (h : a ≤ b) (m : ℕ) :
    List.Sorted (· ≤ ·) (linspace a b m) := by
  unfold linspace
  by_cases h0 : m = 0
  · rw [if_pos h0]; exact List.sorted_nil
  rw [if_neg h0]
  by_cases h1 : m = 1
  · rw [if_pos h1]; exact List.sorted_singleton a
  rw [if_neg h1, List.Sorted, List.pairwise_map]
  refine List.Pairwise.imp_of_mem ?_ (List.pairwise_lt_range m)
  intro i j _ _ hij
  have hm2 : 2 ≤ m := by omega
  have hden : (0 : ℚ) < (m : ℚ) - 1 := by
    have : (2 : ℚ) ≤ (m : ℚ) := by exact_mod_cast hm2
    linarith
  have hba : (0 : ℚ) ≤ b - a := by linarith
  have hijq : (i : ℚ) ≤ (j : ℚ) := by exact_mod_cast le_of_lt hij
  have hmul : (b - a) * (i : ℚ) ≤ (b - a) * (j : ℚ) :=
    mul_le_mul_of_nonneg_left hijq hba
  have hdiv : (b - a) * (i : ℚ) / ((m : ℚ) - 1) ≤ (b - a) * (j : ℚ) / ((m : ℚ) - 1) :=
    (div_le_div_iff_of_pos_right hden).mpr hmul
  linarith

theorem arange_zero {k : ℕ} (hk : 0 < k) (m : ℕ) :
    arange 0 (m * k) k = (List.range m).map (fun i => i * k) := by
  unfold arange
  rw [if_neg (Nat.pos_iff_ne_zero.1 hk)]
  have hcnt : (m * k - 0 + k - 1) / k = m := by
    rw [Nat.sub_zero]
    have e : m * k + k - 1 = (k - 1) + m * k := by omega
    rw [e, Nat.add_mul_div_right _ _ hk, Nat.div_eq_of_lt (by omega)]
    omega
  rw [hcnt]
  exact List.map_congr_left (fun i _ => by omega)

theorem arange_pred {k : ℕ} (hk : 0 < k) {m : ℕ} (hm : 0 < m) :
    arange (k - 1) (m * k) k = (List.range m).map (fun i => i * k + k - 1) := by
  unfold arange
  rw [if_neg (Nat.pos_iff_ne_zero.1 hk)]
  have hkm : k ≤ m * k := Nat.le_mul_of_pos_left k hm
  have hcnt : (m * k - (k - 1) + k - 1) / k = m := by
    have e : m * k - (k - 1) + k - 1 = m * k := by omega
    rw [e, Nat.mul_div_cancel _ hk]
  rw [hcnt]
  exact List.map_congr_left (fun i _ => by omega)

theorem truncQ_mono {a b : ℚ} (h : a ≤ b) : truncQ a ≤ truncQ b := by
  unfold truncQ
  by_cases ha : 0 ≤ a
  · rw [if_pos ha, if_pos (le_trans ha h)]
    exact_mod_cast Int.floor_le_floor h
  · by_cases hb : 0 ≤ b
    · rw [if_neg ha, if_pos hb]
      have h1 : ⌈a⌉ ≤ 0 := Int.ceil_le.mpr (by exact_mod_cast le_of_lt (lt_of_not_le ha))
      have h2 : (0 : ℤ) ≤ ⌊b⌋ := Int.floor_nonneg.2 hb
      exact_mod_cast le_trans h1 h2
    · rw [if_neg ha, if_neg hb]
      exact_mod_cast Int.ceil_le_ceil h

theorem castQ_mono (d : Dt) {a b : ℚ} (h : a ≤ b) : castQ d a ≤ castQ d b := by
  cases d with
  | flt => exact h
  | int => exact truncQ_mono h

theorem truncQ_intCast (z : ℤ) : truncQ ((z : ℤ) : ℚ) = ((z : ℤ) : ℚ) := by
  unfold truncQ
  by_cases h : (0 : ℚ) ≤ (z : ℚ)
  · rw [if_pos h, Int.floor_intCast]
  · rw [if_neg h, Int.ceil_intCast]

theorem truncQ_idem (q : ℚ) : truncQ (truncQ q) = truncQ q := by
  by_cases h : 0 ≤ q
  · have e : truncQ q = ((⌊q⌋ : ℤ) : ℚ) := by unfold truncQ; rw [if_pos h]
    rw [e, truncQ_intCast]
  · have e : truncQ q = ((⌈q⌉ : ℤ) : ℚ) := by unfold truncQ; rw [if_neg h]
    rw [e, truncQ_intCast]

theorem castQ_idem (d : Dt) (q : ℚ) : castQ d (castQ d q) = castQ d q := by
  cases d with
  | flt => rfl
  | int => exact truncQ_idem q

theorem sorted_map_castQ {xs : List ℚ} (d : Dt) (h : List.Sorted (· ≤ ·) xs) :
    List.Sorted (· ≤ ·) (xs.map (castQ d)) :=
  List.Pairwise.map _ (fun _ _ hab => castQ_mono d hab) h

theorem headD_eq_getD (xs : List ℚ) : xs.headD 0 = xs.getD 0 0 := by
  cases xs with
  | nil => rfl
  | cons x l => rfl

theorem getLastD_eq_getD (xs : List ℚ) : xs.getLastD 0 = xs.getD (xs.length - 1) 0 := by
  rw [List.getLastD_eq_getLast?, List.getLast?_eq_getElem?, List.getD_eq_getElem?_getD]

theorem sorted_headD_le_getLastD {xs : List ℚ} (h : List.Sorted (· ≤ ·) xs)
    (hne : xs ≠ []) : xs.headD 0 ≤ xs.getLastD 0 := by
  rw [headD_eq_getD, getLastD_eq_getD]
  have hlen : 0 < xs.length := List.length_pos.2 hne
  exact sorted_getD_mono h (Nat.zero_le _) (by omega)

/-! ## cell access lemmas -/

theorem getD_eq_getElem {α : Type} (xs : List α) {i : ℕ} (d : α) (h : i < xs.length) :
    xs.getD i d = xs[i] := by
  rw [List.getD_eq_getElem?_getD, List.getElem?_eq_getElem h]
  rfl

theorem getD_map_lt {α β : Type} (f : α → β) {l : List α} {i : ℕ} (h : i < l.length)
    (d : α) (d2 : β) : (l.map f).getD i d2 = f (l.getD i d) := by
  rw [getD_eq_getElem _ d2 (by simpa using h), getD_eq_getElem _ d h, List.getElem_map]

theorem cellAt_oob {a : MMat} {i j : ℕ}
    (h : ¬ i < a.length ∨ ¬ j < (a.getD i []).length) : cellAt a i j = (0, false) := by
  unfold cellAt
  rcases h with h | h
  · rw [List.getD_eq_default a [] (by omega), List.getD_nil]
  · exact List.getD_eq_default _ _ (by omega)

theorem length_maskGe (r : MatQ) (mr : ℚ) (a : MMat) :
    (maskGe r mr a).length = a.length := by
  unfold maskGe
  rw [List.length_map, List.enum_length]

theorem getD_maskGe (r : MatQ) (mr : ℚ) (a : MMat) {i : ℕ} (hi : i < a.length) :
    (maskGe r mr a).getD i [] =
      (a.getD i []).enum.map
        (fun c => (c.2.1, c.2.2 || decide (mr ≤ (r.getD i []).getD c.1 0))) := by
  unfold maskGe
  rw [getD_eq_getElem _ [] (by rw [List.length_map, List.enum_length]; exact hi),
    List.getElem_map, List.getElem_enum, getD_eq_getElem _ [] hi]

theorem rowlen_maskGe (r : MatQ) (mr : ℚ) (a : MMat) {i : ℕ} (hi : i < a.length) :
    ((maskGe r mr a).getD i []).length = (a.getD i []).length := by
  rw [getD_maskGe r mr a hi, List.length_map, List.enum_length]

theorem cellAt_maskGe (r : MatQ) (mr : ℚ) (a : MMat) {i j : ℕ} (hi : i < a.length)
    (hj : j < (a.getD i []).length) :
    cellAt (maskGe r mr a) i j =
      ((cellAt a i j).1,
        (cellAt a i j).2 || decide (mr ≤ (r.getD i []).getD j 0)) := by
  unfold cellAt
  rw [getD_maskGe r mr a hi,
    getD_eq_getElem _ (0, false) (by rw [List.length_map, List.enum_length]; exact hj),
    List.getElem_map, List.getElem_enum, getD_eq_getElem _ (0, false) hj]

theorem length_maskEq (a : MMat) (m : ℚ) : (maskEq a m).length = a.length :=
  List.length_map a _

theorem rowlen_maskEq (a : MMat) (m : ℚ) {i : ℕ} (hi : i < a.length) :
    ((maskEq a m).getD i []).length = (a.getD i []).length := by
  unfold maskEq
  rw [getD_map_lt _ hi [] [], List.length_map]

theorem cellAt_maskEq (a : MMat) (m : ℚ) {i j : ℕ} (hi : i < a.length)
    (hj : j < (a.getD i []).length) :
    cellAt (maskEq a m) i j =
      ((cellAt a i j).1, (cellAt a i j).2 || decide ((cellAt a i j).1 = m)) := by
  unfold maskEq cellAt
  rw [getD_map_lt _ hi [] [], getD_map_lt _ hj (0, false) (0, false)]

theorem length_castMat (d : Dt) (a : MMat) : (castMat d a).length = a.length :=
  List.length_map a _

theorem rowlen_castMat (d : Dt) (a : MMat) {i : ℕ} (hi : i < a.length) :
    ((castMat d a).getD i []).length = (a.getD i []).length := by
  unfold castMat
  rw [getD_map_lt _ hi [] [], List.length_map]

theorem cellAt_castMat (d : Dt) (a : MMat) {i j : ℕ} (hi : i < a.length)
    (hj : j < (a.getD i []).length) :
    cellAt (castMat d a) i j = (castQ d (cellAt a i j).1, (cellAt a i j).2) := by
  unfold castMat cellAt
  rw [getD_map_lt _ hi [] [], getD_map_lt _ hj (0, false) (0, false)]

theorem length_maskEqMin (a : MMat) : (maskEqMin a).length = a.length :=
  length_maskEq a _

theorem rowlen_maskEqMin (a : MMat) {i : ℕ} (hi : i < a.length) :
    ((maskEqMin a).getD i []).length = (a.getD i []).length :=
  rowlen_maskEq a _ hi

theorem cellAt_maskEqMin (a : MMat) {i j : ℕ} (hi : i < a.length)
    (hj : j < (a.getD i []).length) :
    cellAt (maskEqMin a) i j =
      ((cellAt a i j).1, (cellAt a i j).2 || decide ((cellAt a i j).1 = mmin a)) :=
  cellAt_maskEq a _ hi hj

theorem mask_mono_maskEq (a : MMat) (m : ℚ) {i j : ℕ}
    (h : (cellAt a i j).2 = true) : (cellAt (maskEq a m) i j).2 = true := by
  by_cases hi : i < a.length
  · by_cases hj : j < (a.getD i []).length
    · rw [cellAt_maskEq a m hi hj]
      simp [h]
    · rw [cellAt_oob (Or.inr hj)] at h
      exact absurd h (by simp)
  · rw [cellAt_oob (Or.inl hi)] at h
    exact absurd h (by simp)

theorem mask_castMat (d : Dt) (a : MMat) {i j : ℕ} :
    (cellAt (castMat d a) i j).2 = (cellAt a i j).2 := by
  by_cases hi : i < a.length
  · by_cases hj : j < (a.getD i []).length
    · rw [cellAt_castMat d a hi hj]
    · rw [cellAt_oob (Or.inr hj), cellAt_oob (a := castMat d a) (Or.inr (by
        rw [rowlen_castMat d a hi]; exact hj))]
  · rw [cellAt_oob (Or.inl hi), cellAt_oob (a := castMat d a) (Or.inl (by
      rw [length_castMat]; exact hi))]

theorem getD_flatten_uniform {α : Type} {rows : List (List α)} {K : ℕ}
    (h : ∀ r ∈ rows, r.length = K) {s p : ℕ} (hs : s < rows.length) (hp : p < K)
    (d : α) : rows.flatten.getD (s * K + p) d = (rows.getD s []).getD p d := by
  have hflat : rows.flatten.length = rows.length * K := flatten_length_uniform h
  have hlt : s * K + p < rows.flatten.length := by
    rw [hflat]
    calc s * K + p < s * K + K := by omega
      _ = (s + 1) * K := by ring
      _ ≤ rows.length * K := Nat.mul_le_mul_right K hs
  have h1 : rows.flatten.getD (s * K + p) d = (rows.flatten.drop (s * K)).getD p d := by
    rw [getD_eq_getElem _ d hlt, getD_eq_getElem _ d (by
      rw [List.length_drop, hflat]
      calc p < K := hp
        _ ≤ rows.length * K - s * K := by
          have : (s + 1) * K ≤ rows.length * K := Nat.mul_le_mul_right K hs
          have e : (s + 1) * K = s * K + K := by ring
          omega), List.getElem_drop]
  rw [h1, drop_flatten_uniform h s, List.drop_eq_getElem_cons hs, List.flatten_cons,
    List.getD_append _ _ d p (by rw [h _ (List.getElem_mem hs)]; exact hp),
    getD_eq_getElem _ [] hs]

theorem cellAt_flatten_uniform {rows : List MMat} {K : ℕ}
    (h : ∀ r ∈ rows, r.length = K) {s p j : ℕ} (hs : s < rows.length) (hp : p < K) :
    cellAt rows.flatten (s * K + p) j = cellAt (rows.getD s []) p j := by
  unfold cellAt
  rw [getD_flatten_uniform h hs hp]

/-! ## gridRow and the sweep loop -/

theorem gridRow_lengths {v : Radar} {af : List ℚ} {s : ℕ}
    {t : List ℚ × List ℚ × List ℕ} (h : gridRow v af s = some t) :
    t.1.length = af.length ∧ t.2.1.length = af.length := by
  simp only [gridRow] at h
  split at h
  · split at h
    · exact Option.noConfusion h
    · injection h with h
      rw [← h]
      exact ⟨linspace_length _ _ _, npResize_length _ _⟩
  · rename_i hc
    have hlen : (permute (dedup361 (azSlice v s))
        (argsort (dedup361 (azSlice v s)))).length = af.length := not_ne_iff.mp hc
    injection h with h
    rw [← h]
    constructor
    · exact hlen
    · show (permute (dedup361 (eleSlice v s))
        (argsort (dedup361 (azSlice v s)))).length = af.length
      rw [length_permute, length_argsort]
      rw [length_permute, length_argsort] at hlen
      exact hlen

theorem gridRow_az_sorted {v : Radar} {af : List ℚ} {s : ℕ}
    {t : List ℚ × List ℚ × List ℕ} (h : gridRow v af s = some t) :
    List.Sorted (· ≤ ·) t.1 := by
  simp only [gridRow] at h
  split at h
  · split at h
    · exact Option.noConfusion h
    · injection h with h
      rw [← h]
      rename_i hne
      refine linspace_sorted ?_ _
      exact sorted_headD_le_getLastD (sorted_permute_argsort _)
        (by simpa [List.isEmpty_iff] using hne)
  · injection h with h
    rw [← h]
    exact sorted_permute_argsort _

theorem length_azSorted (v : Radar) (s : ℕ) :
    (azSorted v s).length = (dedup361 (azSlice v s)).length := by
  unfold azSorted
  rw [length_permute, length_argsort]

theorem length_eleSorted (v : Radar) (s : ℕ) :
    (eleSorted v s).length = (dedup361 (azSlice v s)).length := by
  unfold eleSorted
  rw [length_permute, length_argsort]

theorem sorted_azSorted (v : Radar) (s : ℕ) :
    List.Sorted (· ≤ ·) (azSorted v s) :=
  sorted_permute_argsort _

theorem gridRow_min (v : Radar) (s : ℕ) :
    gridRow v (dedup361 (azSlice v s)) s =
      some (azSorted v s, eleSorted v s, argsort (dedup361 (azSlice v s))) := by
  simp only [gridRow]
  rw [if_neg (by rw [length_azSorted]; exact fun hc => hc rfl)]

theorem gridRow_min0 (v : Radar) :
    gridRow v (refAz v) 0 =
      some (azSorted v 0, eleSorted v 0, argsort (refAz v)) :=
  gridRow_min v 0

theorem sweepStep_ne (v : Radar) {s : ℕ} (hs : s ≠ 0) (af : List ℚ)
    (A E : List (List ℚ)) (I : List (List ℕ)) :
    sweepStep v 0 ⟨some af, A, E, I⟩ s =
      (gridRow v af s).map (fun t =>
        ⟨some af, A ++ [t.1], E ++ [t.2.1], I ++ [t.2.2]⟩) := by
  simp only [sweepStep, if_neg hs]
  cases hg : gridRow v af s <;> simp [hg]

theorem foldlM_sweepStep (v : Radar) (af : List ℚ) :
    ∀ l : List ℕ, (∀ s ∈ l, s ≠ 0) →
    ∀ (A E : List (List ℚ)) (I : List (List ℕ)),
    List.foldlM (sweepStep v 0) (⟨some af, A, E, I⟩ : GridAcc) l =
      (seqMap (gridRow v af) l).map (fun ts =>
        ⟨some af, A ++ ts.map (fun t => t.1), E ++ ts.map (fun t => t.2.1),
          I ++ ts.map (fun t => t.2.2)⟩) := by
  intro l
  induction l with
  | nil => intro _ A E I; simp [seqMap]
  | cons s l ih =>
    intro h A E I
    have hs : s ≠ 0 := h s (List.mem_cons_self s l)
    rw [List.foldlM_cons, sweepStep_ne v hs af A E I]
    cases hg : gridRow v af s with
    | none => simp [seqMap, hg]
    | some t =>
      show List.foldlM (sweepStep v 0)
        (⟨some af, A ++ [t.1], E ++ [t.2.1], I ++ [t.2.2]⟩ : GridAcc) l = _
      rw [ih (fun u hu => h u (List.mem_cons_of_mem s hu))]
      cases hm : seqMap (gridRow v af) l with
      | none => simp [seqMap, hg, hm]
      | some ts => simp [seqMap, hg, hm]

theorem sweepLoop_char {v : Radar} {n : ℕ} (hn : v.sweep_number = List.range n)
    (h1 : 1 ≤ n) :
    sweepLoop v 0 =
      (seqMap (gridRow v (refAz v)) (List.range n)).map (fun ts =>
        (⟨some (refAz v), ts.map (fun t => t.1), ts.map (fun t => t.2.1),
          ts.map (fun t => t.2.2)⟩ : GridAcc)) := by
  unfold sweepLoop
  rw [hn]
  obtain ⟨m, rfl⟩ : ∃ m, n = m + 1 := ⟨n - 1, by omega⟩
  rw [List.range_succ_eq_map, List.foldlM_cons]
  have h0 : sweepStep v 0 ⟨none, [], [], []⟩ 0 =
      some ⟨some (refAz v), [azSorted v 0], [eleSorted v 0],
        [argsort (refAz v)]⟩ := by
    simp [sweepStep, gridRow_min, refAz]
  rw [h0]
  show List.foldlM (sweepStep v 0)
      (⟨some (refAz v), [azSorted v 0], [eleSorted v 0],
        [argsort (refAz v)]⟩ : GridAcc) (List.map Nat.succ (List.range m)) = _
  rw [foldlM_sweepStep v (refAz v) _ (by
    intro s hsm
    obtain ⟨u, _, rfl⟩ := List.mem_map.1 hsm
    exact Nat.succ_ne_zero u)]
  cases hm : seqMap (gridRow v (refAz v)) (List.map Nat.succ (List.range m)) with
  | none =>
    simp only [seqMap, gridRow_min0 v, hm]
    rfl
  | some ts =>
    simp only [seqMap, gridRow_min0 v, hm]
    simp

/-! ## the field loop -/

theorem fieldStep_ne (v : Radar) {s : ℕ} (hs : s ≠ 0) (azRows : List (List ℚ))
    (fdata : MMat) (acc : List MMat) :
    fieldStep v 0 azRows fdata acc s =
      (resampleSweep v azRows fdata (azRows.headD []).length s).map
        (fun m => acc ++ [m]) := by
  simp only [fieldStep]
  cases hg : resampleSweep v azRows fdata (azRows.headD []).length s with
  | none => simp
  | some m => simp [if_neg hs]

theorem foldlM_fieldStep (v : Radar) (azRows : List (List ℚ)) (fdata : MMat) :
    ∀ l : List ℕ, (∀ s ∈ l, s ≠ 0) → ∀ acc : List MMat,
    List.foldlM (fieldStep v 0 azRows fdata) acc l =
      (seqMap (resampleSweep v azRows fdata (azRows.headD []).length) l).map
        (fun ms => acc ++ ms) := by
  intro l
  induction l with
  | nil => intro _ acc; simp [seqMap]
  | cons s l ih =>
    intro h acc
    have hs : s ≠ 0 := h s (List.mem_cons_self s l)
    rw [List.foldlM_cons, fieldStep_ne v hs azRows fdata acc]
    cases hg : resampleSweep v azRows fdata (azRows.headD []).length s with
    | none =>
      simp only [seqMap]
      rw [hg]
      rfl
    | some m =>
      show List.foldlM (fieldStep v 0 azRows fdata) (acc ++ [m]) l = _
      rw [ih (fun u hu => h u (List.mem_cons_of_mem s hu))]
      cases hm : seqMap (resampleSweep v azRows fdata (azRows.headD []).length) l with
      | none =>
        simp only [seqMap]
        rw [hg, hm]
        rfl
      | some ms =>
        simp only [seqMap]
        rw [hg, hm]
        simp

theorem processField_char {v : Radar} {n : ℕ} (hn : v.sweep_number = List.range n)
    (h1 : 1 ≤ n) (azRows : List (List ℚ)) (fld : Field) :
    processField v 0 azRows fld =
      (seqMap (resampleSweep v azRows fld.data (azRows.headD []).length)
          (List.range n)).map
        (fun ms => (⟨maskEqMin (castMat fld.dtype ms.flatten), fld.dtype⟩ : Field)) := by
  unfold processField
  rw [hn]
  obtain ⟨m, rfl⟩ : ∃ m, n = m + 1 := ⟨n - 1, by omega⟩
  rw [List.range_succ_eq_map, List.foldlM_cons]
  cases h0 : resampleSweep v azRows fld.data (azRows.headD []).length 0 with
  | none =>
    simp only [fieldStep, h0, seqMap]
    rfl
  | some m0 =>
    have hstep : fieldStep v 0 azRows fld.data [] 0 = some [m0] := by
      simp only [fieldStep, h0]
      simp
    rw [hstep]
    show (match List.foldlM (fieldStep v 0 azRows fld.data) [m0]
        (List.map Nat.succ (List.range m)) with
      | none => none
      | some mats =>
        some (⟨maskEqMin (castMat fld.dtype mats.flatten), fld.dtype⟩ : Field)) = _
    rw [foldlM_fieldStep v azRows fld.data _ (by
      intro s hsm
      obtain ⟨u, _, rfl⟩ := List.mem_map.1 hsm
      exact Nat.succ_ne_zero u)]
    cases hm : seqMap (resampleSweep v azRows fld.data (azRows.headD []).length)
        (List.map Nat.succ (List.range m)) with
    | none =>
      simp only [seqMap, h0, hm]
      rfl
    | some ms =>
      simp only [seqMap, h0, hm]
      simp

theorem setFieldData_mem {fs : List (String × Field)} {nm : String} {f : Field}
    {q : String × Field} (h : q ∈ setFieldData fs nm f) :
    (q.1 = nm ∧ q.2 = f) ∨ (q ∈ fs ∧ q.1 ≠ nm) := by
  unfold setFieldData at h
  obtain ⟨p, hp, hq⟩ := List.mem_map.1 h
  by_cases hc : p.1 = nm
  · rw [if_pos hc] at hq
    left
    rw [← hq]
    exact ⟨rfl, rfl⟩
  · rw [if_neg hc] at hq
    right
    rw [← hq]
    exact ⟨hp, hc⟩

theorem setFieldData_names (fs : List (String × Field)) (nm : String) (f : Field) :
    (setFieldData fs nm f).map Prod.fst = fs.map Prod.fst := by
  unfold setFieldData
  rw [List.map_map]
  refine List.map_congr_left (fun p _ => ?_)
  by_cases hc : p.1 = nm
  · simp [hc]
  · simp [hc]

theorem fieldLoop_elim (v : Radar) (smin : ℕ) (azRows : List (List ℚ)) :
    ∀ (fl : List (String × Field)) (r : Radar) (dt : Option Dt) (r2 : Radar)
      (dt2 : Option Dt), fieldLoop v smin azRows fl r dt = .ok (r2, dt2) →
      r2.sweep_number = r.sweep_number ∧ r2.ranges = r.ranges ∧
      r2.azimuth = r.azimuth ∧ r2.elevation = r.elevation ∧
      r2.sweep_start_ray_index = r.sweep_start_ray_index ∧
      r2.sweep_end_ray_index = r.sweep_end_ray_index ∧ r2.nrays = r.nrays ∧
      r2.unambiguous_range = r.unambiguous_range ∧ r2.gate_r = r.gate_r ∧
      r2.fields.map Prod.fst = r.fields.map Prod.fst ∧
      dt2 = (fl.getLast?.map (fun p => some p.2.dtype)).getD dt ∧
      ∀ q ∈ r2.fields,
        (q ∈ r.fields ∧ ∀ fld, (q.1, fld) ∉ fl) ∨
        ∃ fld, (q.1, fld) ∈ fl ∧ processField v smin azRows fld = some q.2 := by
  intro fl
  induction fl with
  | nil =>
    intro r dt r2 dt2 h
    simp only [fieldLoop] at h
    injection h with h
    injection h with h1 h2
    rw [← h1, ← h2]
    refine ⟨rfl, rfl, rfl, rfl, rfl, rfl, rfl, rfl, rfl, rfl, rfl, ?_⟩
    intro q hq
    exact Or.inl ⟨hq, fun fld hc => (List.not_mem_nil _ hc)⟩
  | cons p fl ih =>
    intro r dt r2 dt2 h
    obtain ⟨nm, fld⟩ := p
    simp only [fieldLoop] at h
    cases hp : processField v smin azRows fld with
    | none => rw [hp] at h; exact absurd h (by simp)
    | some fld2 =>
      rw [hp] at h
      obtain ⟨c1, c2, c3, c4, c5, c6, c7, c8, c9, c10, c11, c12⟩ :=
        ih { r with fields := setFieldData r.fields nm fld2 } (some fld.dtype) r2 dt2 h
      refine ⟨c1, c2, c3, c4, c5, c6, c7, c8, c9, ?_, ?_, ?_⟩
      · rw [c10]
        exact setFieldData_names r.fields nm fld2
      · rw [c11]
        cases fl with
        | nil => rfl
        | cons p2 fl2 => rw [List.getLast?_cons_cons]; rfl
      · intro q hq
        rcases c12 q hq with ⟨hmem, hnotin⟩ | ⟨fld3, hmem3, hp3⟩
        · rcases setFieldData_mem hmem with ⟨he1, he2⟩ | ⟨hmem2, hne⟩
          · right
            refine ⟨fld, ?_, ?_⟩
            · rw [he1]
              exact List.mem_cons_self _ _
            · rw [hp, he2]
          · left
            refine ⟨hmem2, fun fld3 hc => ?_⟩
            rcases List.mem_cons.1 hc with he | hc2
            · exact hne (by injection he)
            · exact hnotin fld3 hc2
        · right
          exact ⟨fld3, List.mem_cons_of_mem _ hmem3, hp3⟩

/-! ## anatomy of a completed run -/

theorem mainFinish_ok_elim {vf : Radar} {dt : Dt} {af : Option (List ℚ)}
    {A E : List (List ℚ)} {I : List (List ℕ)} {v1 : Radar}
    (h : mainFinish vf dt ⟨af, A, E, I⟩ = .ok v1) :
    1 ≤ (A.headD []).length ∧
    2 ≤ (arange 0 (A.flatten.map (castQ dt)).length (A.headD []).length).length ∧
    v1 = { vf with
      azimuth := A.flatten.map (castQ dt)
      elevation := E.flatten.map (castQ dt)
      nrays := (A.flatten.map (castQ dt)).length
      sweep_start_ray_index := arange 0 (A.flatten.map (castQ dt)).length
        (A.headD []).length
      sweep_end_ray_index := arange
        ((arange 0 (A.flatten.map (castQ dt)).length
          (A.headD []).length).getD 1 0 - 1)
        (A.flatten.map (castQ dt)).length
        (A.headD []).length } := by
  simp only [mainFinish] at h
  split at h
  · exact absurd h (by simp)
  · split at h
    · exact absurd h (by simp)
    · injection h with h
      refine ⟨by omega, by omega, h.symm⟩

theorem main_ok_elim {v : Radar} {n : ℕ} {v1 : Radar}
    (hn : v.sweep_number = List.range n) (h : main v = .ok v1) :
    ∃ (ts : List (List ℚ × List ℚ × List ℕ)) (vf : Radar),
      2 ≤ n ∧ 1 ≤ (refAz v).length ∧
      seqMap (gridRow v (refAz v)) (List.range n) = some ts ∧
      ts.length = n ∧
      (∀ t ∈ ts, t.1.length = (refAz v).length ∧ t.2.1.length = (refAz v).length ∧
        List.Sorted (· ≤ ·) t.1) ∧
      fieldLoop v 0 (ts.map (fun t => t.1)) v.fields v none =
        .ok (vf, some (lastDtype v)) ∧
      v1 = { vf with
        azimuth := (ts.map (fun t => t.1)).flatten.map (castQ (lastDtype v))
        elevation := (ts.map (fun t => t.2.1)).flatten.map (castQ (lastDtype v))
        nrays := n * (refAz v).length
        sweep_start_ray_index := (List.range n).map (fun s => s * (refAz v).length)
        sweep_end_ray_index :=
          (List.range n).map
            (fun s => s * (refAz v).length + (refAz v).length - 1) } := by
  have hn1 : 1 ≤ n := by
    by_contra hc
    have hn0 : n = 0 := by omega
    rw [hn0] at hn
    unfold main at h
    rw [hn] at h
    exact Except.noConfusion h
  have hmain : main v = mainSweeps v 0 := by
    obtain ⟨m, rfl⟩ : ∃ m, n = m + 1 := ⟨n - 1, by omega⟩
    unfold main
    rw [hn, List.range_succ_eq_map]
    show mainSweeps v ((List.map Nat.succ (List.range m)).foldl min 0) = mainSweeps v 0
    rw [foldl_min_zero]
  rw [hmain] at h
  unfold mainSweeps at h
  rw [sweepLoop_char hn hn1] at h
  cases hts : seqMap (gridRow v (refAz v)) (List.range n) with
  | none => rw [hts] at h; exact absurd h (by simp)
  | some ts =>
    rw [hts] at h
    have hlen : ts.length = n := by
      rw [seqMap_length _ hts, List.length_range]
    have hshape : ∀ t ∈ ts, t.1.length = (refAz v).length ∧
        t.2.1.length = (refAz v).length ∧ List.Sorted (· ≤ ·) t.1 := by
      intro t ht
      obtain ⟨s, _, hgs⟩ := seqMap_mem _ hts t ht
      obtain ⟨e1, e2⟩ := gridRow_lengths hgs
      exact ⟨e1, e2, gridRow_az_sorted hgs⟩
    have h2 : (match fieldLoop v 0 (ts.map (fun t => t.1)) v.fields v none with
      | .error r => (Except.error r : Except Radar Radar)
      | .ok (v2, none) => Except.error v2
      | .ok (v2, some dt) => mainFinish v2 dt
          ⟨some (refAz v),
            ts.map (fun t : List ℚ × List ℚ × List ℕ => t.1),
            ts.map (fun t : List ℚ × List ℚ × List ℕ => t.2.1),
            ts.map (fun t : List ℚ × List ℚ × List ℕ => t.2.2)⟩) = .ok v1 := h
    cases hfl : fieldLoop v 0 (ts.map (fun t => t.1)) v.fields v none with
    | error r => rw [hfl] at h2; exact absurd h2 (by simp)
    | ok rdt =>
      obtain ⟨vf, odt⟩ := rdt
      rw [hfl] at h2
      cases odt with
      | none => exact absurd h2 (by simp)
      | some dt =>
        have hdt : dt = lastDtype v := by
          have hc := (fieldLoop_elim v 0 (ts.map (fun t => t.1)) v.fields v none vf
            (some dt) hfl).2.2.2.2.2.2.2.2.2.2.1
          cases hlast : v.fields.getLast? with
          | none => rw [hlast] at hc; exact Option.noConfusion hc
          | some p =>
            rw [hlast] at hc
            injection hc with hc
            unfold lastDtype
            rw [hlast, hc]
            rfl
        rw [hdt] at h2 hfl
        obtain ⟨hk1, hst2, hv1⟩ := mainFinish_ok_elim h2
        -- identify the head-row length with the reference length
        obtain ⟨t0, ts', hts0⟩ : ∃ t0 ts', ts = t0 :: ts' := by
          cases ts with
          | nil => rw [List.length_nil] at hlen; omega
          | cons a b => exact ⟨a, b, rfl⟩
        have hhead : ((ts.map (fun t => t.1)).headD []).length = (refAz v).length := by
          rw [hts0]
          exact (hshape t0 (by rw [hts0]; exact List.mem_cons_self _ _)).1
        have hrows : ∀ r ∈ ts.map (fun t => t.1), r.length = (refAz v).length := by
          intro r hr
          obtain ⟨t, ht, rfl⟩ := List.mem_map.1 hr
          exact (hshape t ht).1
        have hflatlen : (ts.map (fun t => t.1)).flatten.length =
            n * (refAz v).length := by
          rw [flatten_length_uniform hrows, List.length_map, hlen]
        have hmaplen : ((ts.map (fun t => t.1)).flatten.map
            (castQ (lastDtype v))).length = n * (refAz v).length := by
          rw [List.length_map, hflatlen]
        have hK1 : 1 ≤ (refAz v).length := by
          rw [hhead] at hk1
          exact hk1
        have hKpos : 0 < (refAz v).length := hK1
        have hst : arange 0 ((ts.map (fun t => t.1)).flatten.map
            (castQ (lastDtype v))).length ((ts.map (fun t => t.1)).headD []).length =
            (List.range n).map (fun s => s * (refAz v).length) := by
          rw [hmaplen, hhead, arange_zero hKpos]
        have hn2 : 2 ≤ n := by
          rw [hst, List.length_map, List.length_range] at hst2
          exact hst2
        have hgetD : ((List.range n).map
            (fun s => s * (refAz v).length)).getD 1 0 = (refAz v).length := by
          rw [getD_map_lt _ (by rw [List.length_range]; omega) 0 0,
            getD_eq_getElem _ 0 (by rw [List.length_range]; omega),
            List.getElem_range]
          omega
        have hen : arange
            (((List.range n).map (fun s => s * (refAz v).length)).getD 1 0 - 1)
            ((ts.map (fun t => t.1)).flatten.map (castQ (lastDtype v))).length
            ((ts.map (fun t => t.1)).headD []).length =
            (List.range n).map
              (fun s => s * (refAz v).length + (refAz v).length - 1) := by
          rw [hgetD, hmaplen, hhead, arange_pred hKpos (by omega)]
        refine ⟨ts, vf, hn2, hK1, rfl, hlen, hshape, hfl, ?_⟩
        rw [hv1, hst, hen, hmaplen]

theorem sweepStep_self (v : Radar) (s : ℕ) (acc : GridAcc) :
    sweepStep v s acc s =
      some ⟨some (dedup361 (azSlice v s)), [azSorted v s], [eleSorted v s],
        [argsort (dedup361 (azSlice v s))]⟩ := by
  simp [sweepStep, gridRow_min]

theorem slice_map {α β : Type} (f : α → β) (l : List α) (a b : ℕ) :
    slice (l.map f) a b = (slice l a b).map f := by
  unfold slice
  rw [← List.map_drop, ← List.map_take]

theorem getD_range_map_lt {K : ℕ} (g : ℕ → ℕ) {n s : ℕ} (hs : s < n) :
    ((List.range n).map (fun u => g u)).getD s K = g s := by
  rw [getD_map_lt _ (by rw [List.length_range]; exact hs) 0 K,
    getD_eq_getElem _ 0 (by rw [List.length_range]; exact hs), List.getElem_range]

theorem gridRow_of_ne {v : Radar} {af : List ℚ} {s : ℕ}
    {t : List ℚ × List ℚ × List ℕ} (h : gridRow v af s = some t)
    (hne : (azSorted v s).length ≠ af.length) :
    t.1 = linspace ((azSorted v s).headD 0) ((azSorted v s).getLastD 0) af.length ∧
    t.2.1 = npResize (eleSorted v s) af.length := by
  simp only [gridRow] at h
  rw [if_pos hne] at h
  split at h
  · exact Option.noConfusion h
  · injection h with h
    rw [← h]
    exact ⟨rfl, rfl⟩

theorem gridRow_of_eq {v : Radar} {af : List ℚ} {s : ℕ}
    {t : List ℚ × List ℚ × List ℕ} (h : gridRow v af s = some t)
    (heq : (azSorted v s).length = af.length) :
    t.1 = azSorted v s ∧ t.2.1 = eleSorted v s := by
  simp only [gridRow] at h
  rw [if_neg (not_not_intro heq)] at h
  injection h with h
  rw [← h]
  exact ⟨rfl, rfl⟩

theorem main_out_slices {v : Radar} {n : ℕ} {v2 : Radar}
    (hn : v.sweep_number = List.range n) (h : main v = .ok v2) {s : ℕ}
    (hs : s < n) :
    ∃ ts : List (List ℚ × List ℚ × List ℕ),
      seqMap (gridRow v (refAz v)) (List.range n) = some ts ∧
      gridRow v (refAz v) s = some (ts.getD s ([], [], [])) ∧
      azSlice v2 s = (ts.getD s ([], [], [])).1.map (castQ (lastDtype v)) ∧
      eleSlice v2 s = (ts.getD s ([], [], [])).2.1.map (castQ (lastDtype v)) := by
  obtain ⟨ts, vf, hn2, hK1, hts, hlen, hshape, hfl, hv⟩ := main_ok_elim hn h
  subst hv
  have hrg : gridRow v (refAz v) s = some (ts.getD s ([], [], [])) := by
    have hg := seqMap_getD _ hts s (by rw [List.length_range]; exact hs) ([], [], [])
    rw [getD_eq_getElem _ 0 (by rw [List.length_range]; exact hs),
      List.getElem_range] at hg
    exact hg
  have hstart : ((List.range n).map
      (fun u => u * (refAz v).length)).getD s 0 = s * (refAz v).length :=
    getD_range_map_lt _ hs
  have hend : ((List.range n).map
      (fun u => u * (refAz v).length + (refAz v).length - 1)).getD s 0 =
      s * (refAz v).length + (refAz v).length - 1 :=
    getD_range_map_lt _ hs
  have hsum : s * (refAz v).length + (refAz v).length - 1 + 1 =
      s * (refAz v).length + (refAz v).length := by omega
  have hazrows : ∀ r ∈ ts.map (fun t => t.1), r.length = (refAz v).length := by
    intro r hr
    obtain ⟨t, ht, rfl⟩ := List.mem_map.1 hr
    exact (hshape t ht).1
  have helerows : ∀ r ∈ ts.map (fun t => t.2.1), r.length = (refAz v).length := by
    intro r hr
    obtain ⟨t, ht, rfl⟩ := List.mem_map.1 hr
    exact (hshape t ht).2.1
  refine ⟨ts, hts, hrg, ?_, ?_⟩
  · show slice ((ts.map (fun t => t.1)).flatten.map (castQ (lastDtype v)))
      (((List.range n).map (fun u => u * (refAz v).length)).getD s 0)
      (((List.range n).map
        (fun u => u * (refAz v).length + (refAz v).length - 1)).getD s 0 + 1) = _
    rw [hstart, hend, hsum, slice_map,
      slice_flatten_uniform hazrows (by rw [List.length_map, hlen]; exact hs),
      getD_map_lt _ (by rw [hlen]; exact hs) ([], [], []) []]
  · show slice ((ts.map (fun t => t.2.1)).flatten.map (castQ (lastDtype v)))
      (((List.range n).map (fun u => u * (refAz v).length)).getD s 0)
      (((List.range n).map
        (fun u => u * (refAz v).length + (refAz v).length - 1)).getD s 0 + 1) = _
    rw [hstart, hend, hsum, slice_map,
      slice_flatten_uniform helerows (by rw [List.length_map, hlen]; exact hs),
      getD_map_lt _ (by rw [hlen]; exact hs) ([], [], []) []]

/-! ## shape lemmas for the field resampler -/

theorem slice_length {α : Type} (xs : List α) (a b : ℕ) :
    (slice xs a b).length = min (b - a) (xs.length - a) := by
  unfold slice
  rw [List.length_take, List.length_drop]

theorem dedup361_length_eq {α β : Type} {xs : List α} {ys : List β}
    (h : xs.length = ys.length) :
    (dedup361 xs).length = (dedup361 ys).length := by
  unfold dedup361
  rw [h]
  by_cases hc : ys.length = 361
  · rw [if_pos hc, if_pos hc, List.length_dropLast, List.length_dropLast, h]
  · rw [if_neg hc, if_neg hc, h]

theorem mem_rowlen_maskGe {r : MatQ} {mr : ℚ} {a : MMat} {K : ℕ}
    (h : ∀ row ∈ a, row.length = K) :
    ∀ row ∈ maskGe r mr a, row.length = K := by
  intro row hrow
  unfold maskGe at hrow
  obtain ⟨p, hp, rfl⟩ := List.mem_map.1 hrow
  rw [List.length_map, List.enum_length]
  exact h p.2 (List.snd_mem_of_mem_enum hp)

theorem mem_rowlen_maskEq {a : MMat} {m : ℚ} {K : ℕ}
    (h : ∀ row ∈ a, row.length = K) :
    ∀ row ∈ maskEq a m, row.length = K := by
  intro row hrow
  unfold maskEq at hrow
  obtain ⟨row2, hr2, rfl⟩ := List.mem_map.1 hrow
  rw [List.length_map]
  exact h row2 hr2

theorem mem_rowlen_maskEqMin {a : MMat} {K : ℕ}
    (h : ∀ row ∈ a, row.length = K) :
    ∀ row ∈ maskEqMin a, row.length = K := mem_rowlen_maskEq h

theorem mem_rowlen_castMat {d : Dt} {a : MMat} {K : ℕ}
    (h : ∀ row ∈ a, row.length = K) :
    ∀ row ∈ castMat d a, row.length = K := by
  intro row hrow
  unfold castMat at hrow
  obtain ⟨row2, hr2, rfl⟩ := List.mem_map.1 hrow
  rw [List.length_map]
  exact h row2 hr2

theorem mem_permuteRows {a : MMat} {idx : List ℕ}
    (hidx : ∀ i ∈ idx, i < a.length) :
    ∀ row ∈ permuteRows a idx, row ∈ a := by
  intro row hrow
  unfold permuteRows at hrow
  obtain ⟨i, hi, rfl⟩ := List.mem_map.1 hrow
  exact getD_lt_mem [] (hidx i hi)

theorem mem_slice {α : Type} {xs : List α} {a b : ℕ} :
    ∀ x ∈ slice xs a b, x ∈ xs := by
  intro x hx
  unfold slice at hx
  exact (List.drop_sublist a xs).mem ((List.take_sublist _ _).mem hx)

theorem interp2dEval_length (x y : List ℚ) (z : MatQ) (xq yq : List ℚ) :
    (interp2dEval x y z xq yq).length = yq.length := List.length_map yq _

theorem mem_rowlen_interp2dEval (x y : List ℚ) (z : MatQ) (xq yq : List ℚ) :
    ∀ row ∈ interp2dEval x y z xq yq, row.length = xq.length := by
  intro row hrow
  unfold interp2dEval at hrow
  obtain ⟨q, hq, rfl⟩ := List.mem_map.1 hrow
  exact List.length_map xq _

theorem length_toMasked (a : MatQ) : (toMasked a).length = a.length :=
  List.length_map a _

theorem mem_rowlen_toMasked {a : MatQ} {K : ℕ} (h : ∀ row ∈ a, row.length = K) :
    ∀ row ∈ toMasked a, row.length = K := by
  intro row hrow
  unfold toMasked at hrow
  obtain ⟨row2, hr2, rfl⟩ := List.mem_map.1 hrow
  rw [List.length_map]
  exact h row2 hr2

theorem resampleCore_shape {v : Radar} {azRows : List (List ℚ)} {K : ℕ}
    (hrowK : ∀ r ∈ azRows, r.length = K)
    (hhead : (azRows.headD []).length = K)
    {fdata : MMat}
    (hfd : fdata.length = v.azimuth.length)
    (hfw : ∀ row ∈ fdata, row.length = v.ranges.length)
    {s : ℕ} (hs : s < azRows.length) {p : MatQ × MMat}
    (h : resampleCore v azRows fdata (azRows.headD []).length s = some p) :
    p.2.length = K ∧ ∀ row ∈ p.2, row.length = v.ranges.length := by
  have hflen : (azSlice v s).length = (fieldSlice fdata v s).length := by
    unfold fieldSlice azSlice
    rw [slice_length, slice_length, hfd]
  simp only [resampleCore] at h
  split at h
  · split at h
    · exact Option.noConfusion h
    · injection h with h
      rw [← h]
      constructor
      · show (maskGe _ _ (toMasked _)).length = K
        rw [length_maskGe, length_toMasked, List.length_map, interp2dEval_length]
        exact hrowK _ (getD_lt_mem [] hs)
      · show ∀ row ∈ maskGe _ _ (toMasked _), row.length = v.ranges.length
        refine mem_rowlen_maskGe (mem_rowlen_toMasked ?_)
        intro row hrow
        obtain ⟨row2, hr2, rfl⟩ := List.mem_map.1 hrow
        rw [List.length_map]
        exact mem_rowlen_interp2dEval _ _ _ _ _ row2 hr2
  · rename_i heq
    injection h with h
    rw [← h]
    have hlen1 : (if (fieldSlice fdata v s).length = 361
        then (fieldSlice fdata v s).dropLast
        else fieldSlice fdata v s).length = (azRows.headD []).length :=
      not_ne_iff.mp heq
    have hazf : (dedup361 (azSlice v s)).length =
        (if (fieldSlice fdata v s).length = 361
          then (fieldSlice fdata v s).dropLast
          else fieldSlice fdata v s).length := dedup361_length_eq hflen
    constructor
    · show (maskGe _ _ (permuteRows _ (argsort (dedup361 (azSlice v s))))).length = K
      rw [length_maskGe, length_permuteRows, length_argsort, hazf, hlen1, hhead]
    · show ∀ row ∈ maskGe _ _
        (permuteRows (if (fieldSlice fdata v s).length = 361
          then (fieldSlice fdata v s).dropLast
          else fieldSlice fdata v s) (argsort (dedup361 (azSlice v s)))),
        row.length = v.ranges.length
      refine mem_rowlen_maskGe ?_
      intro row hrow
      have hrowmem : row ∈ (if (fieldSlice fdata v s).length = 361
          then (fieldSlice fdata v s).dropLast
          else fieldSlice fdata v s) := by
        refine mem_permuteRows ?_ row hrow
        intro i hi
        have := mem_argsort_lt hi
        omega
      have hrowmem2 : row ∈ fieldSlice fdata v s := by
        by_cases hc : (fieldSlice fdata v s).length = 361
        · rw [if_pos hc] at hrowmem
          exact (List.dropLast_sublist _).mem hrowmem
        · rw [if_neg hc] at hrowmem
          exact hrowmem
      exact hfw row (mem_slice row hrowmem2)

theorem resampleSweep_shape {v : Radar} {azRows : List (List ℚ)} {K : ℕ}
    (hrowK : ∀ r ∈ azRows, r.length = K)
    (hhead : (azRows.headD []).length = K)
    {fdata : MMat}
    (hfd : fdata.length = v.azimuth.length)
    (hfw : ∀ row ∈ fdata, row.length = v.ranges.length)
    {s : ℕ} (hs : s < azRows.length) {m : MMat}
    (h : resampleSweep v azRows fdata (azRows.headD []).length s = some m) :
    m.length = K ∧ ∀ row ∈ m, row.length = v.ranges.length := by
  unfold resampleSweep at h
  cases hc : resampleCore v azRows fdata (azRows.headD []).length s with
  | none => rw [hc] at h; exact Option.noConfusion h
  | some p =>
    rw [hc] at h
    injection h with h
    obtain ⟨h1, h2⟩ := resampleCore_shape hrowK hhead hfd hfw hs hc
    rw [← h]
    exact ⟨by rw [length_maskEqMin]; exact h1, mem_rowlen_maskEqMin h2⟩

theorem processField_shape {v : Radar} {n : ℕ}
    (hn : v.sweep_number = List.range n) (hn1 : 1 ≤ n)
    {ts : List (List ℚ × List ℚ × List ℕ)} (hlen : ts.length = n)
    (hshape : ∀ t ∈ ts, t.1.length = (refAz v).length)
    {fld fld2 : Field}
    (hfd : fld.data.length = v.azimuth.length)
    (hfw : ∀ row ∈ fld.data, row.length = v.ranges.length)
    (hpf : processField v 0 (ts.map (fun t => t.1)) fld = some fld2) :
    fld2.data.length = n * (refAz v).length ∧
    (∀ row ∈ fld2.data, row.length = v.ranges.length) ∧
    fld2.dtype = fld.dtype := by
  have hrowK : ∀ r ∈ ts.map (fun t => t.1), r.length = (refAz v).length := by
    intro r hr
    obtain ⟨t, ht, rfl⟩ := List.mem_map.1 hr
    exact hshape t ht
  have hhead : ((ts.map (fun t => t.1)).headD []).length = (refAz v).length := by
    cases hts0 : ts with
    | nil => rw [hts0] at hlen; rw [List.length_nil] at hlen; omega
    | cons t0 ts' =>
      show t0.1.length = (refAz v).length
      exact hshape t0 (by rw [hts0]; exact List.mem_cons_self _ _)
  rw [processField_char hn hn1 _ fld] at hpf
  cases hms : seqMap (resampleSweep v (ts.map (fun t => t.1)) fld.data
      ((ts.map (fun t => t.1)).headD []).length) (List.range n) with
  | none => rw [hms] at hpf; exact Option.noConfusion hpf
  | some ms =>
    rw [hms] at hpf
    injection hpf with hpf
    rw [← hpf]
    have hmslen : ms.length = n := by
      rw [seqMap_length _ hms, List.length_range]
    have hmK : ∀ mat ∈ ms, mat.length = (refAz v).length ∧
        ∀ row ∈ mat, row.length = v.ranges.length := by
      intro mat hmat
      obtain ⟨u, hu, hru⟩ := seqMap_mem _ hms mat hmat
      exact resampleSweep_shape hrowK hhead hfd hfw
        (by rw [List.length_map, hlen]; exact List.mem_range.1 hu) hru
    refine ⟨?_, ?_, rfl⟩
    · show (maskEqMin (castMat fld.dtype ms.flatten)).length = n * (refAz v).length
      rw [length_maskEqMin, length_castMat,
        flatten_length_uniform (fun mat hmat => (hmK mat hmat).1), hmslen]
    · show ∀ row ∈ maskEqMin (castMat fld.dtype ms.flatten),
        row.length = v.ranges.length
      refine mem_rowlen_maskEqMin (mem_rowlen_castMat ?_)
      intro row hrow
      obtain ⟨mat, hmat, hrm⟩ := List.mem_flatten.1 hrow
      exact (hmK mat hmat).2 row hrm

theorem seqMap_map {α β : Type} (f : ℕ → Option α) (g : α → β) :
    ∀ l : List ℕ,
    seqMap (fun s => (f s).map g) l = (seqMap f l).map (List.map g) := by
  intro l
  induction l with
  | nil => rfl
  | cons s l ih =>
    simp only [seqMap]
    cases hf : f s with
    | none => rfl
    | some a =>
      rw [ih]
      cases hm : seqMap f l with
      | none => rfl
      | some as1 => rfl

/-! ## second-run analysis: the output of a completed run re-enters `main` -/

theorem dedup361_noop {α : Type} {xs : List α} (h : xs.length ≠ 361) :
    dedup361 xs = xs := by
  unfold dedup361
  rw [if_neg h]

theorem seqMap_of_some {α : Type} (f : ℕ → Option α) (g : ℕ → α) :
    ∀ l : List ℕ, (∀ s ∈ l, f s = some (g s)) →
      seqMap f l = some (l.map g) := by
  intro l
  induction l with
  | nil => intro _; rfl
  | cons s l ih =>
    intro h
    simp only [seqMap]
    rw [h s (List.mem_cons_self _ _), ih (fun u hu => h u (List.mem_cons_of_mem _ hu))]
    rfl

theorem slice_shift {α : Type} (xs : List α) (K a b : ℕ) :
    slice xs (K + a) (K + b) = slice (xs.drop K) a b := by
  unfold slice
  rw [show K + b - (K + a) = b - a from by omega, List.drop_drop]

theorem flatten_slices {α : Type} :
    ∀ (n : ℕ) (xs : List α) (K : ℕ), xs.length = n * K →
      ((List.range n).map (fun s => slice xs (s * K) (s * K + K))).flatten = xs := by
  intro n
  induction n with
  | zero =>
    intro xs K h
    rw [Nat.zero_mul] at h
    rw [List.length_eq_zero.mp h]
    rfl
  | succ m ih =>
    intro xs K h
    rw [List.range_succ_eq_map, List.map_cons, List.flatten_cons]
    have htail : (List.map Nat.succ (List.range m)).map
        (fun s => slice xs (s * K) (s * K + K)) =
        (List.range m).map (fun s => slice (xs.drop K) (s * K) (s * K + K)) := by
      rw [List.map_map]
      refine List.map_congr_left (fun s _ => ?_)
      show slice xs (Nat.succ s * K) (Nat.succ s * K + K) = _
      rw [Nat.succ_mul, Nat.add_comm (s * K) K, Nat.add_assoc, slice_shift,
        Nat.add_comm K (s * K)]
    have hdlen : (xs.drop K).length = m * K := by
      rw [List.length_drop, h, Nat.succ_mul]
      omega
    rw [htail, ih (xs.drop K) K hdlen, Nat.zero_mul, Nat.zero_add]
    show List.take K xs ++ List.drop K xs = xs
    exact List.take_append_drop K xs

theorem rowData_enumMask (row : MRow) (f : ℕ × Cell → Bool) :
    rowData (row.enum.map (fun c => (c.2.1, f c))) = rowData row := by
  show (row.enum.map (fun c => (c.2.1, f c))).map (fun c => c.1) =
    row.map (fun c => c.1)
  rw [List.map_map]
  show row.enum.map (fun c : ℕ × Cell => c.2.1) = row.map (fun c => c.1)
  rw [show (fun c : ℕ × Cell => c.2.1) = (fun c : Cell => c.1) ∘ Prod.snd from rfl,
    ← List.map_map, List.enum_map_snd]

theorem matData_maskGe (r : MatQ) (mr : ℚ) (a : MMat) :
    matData (maskGe r mr a) = matData a := by
  unfold matData maskGe
  rw [List.map_map]
  calc a.enum.map (rowData ∘ fun p : ℕ × MRow =>
        p.2.enum.map (fun c =>
          (c.2.1, c.2.2 || decide (mr ≤ (r.getD p.1 []).getD c.1 0))))
      = a.enum.map (fun p : ℕ × MRow => rowData p.2) :=
        List.map_congr_left (fun p _ => rowData_enumMask p.2 _)
    _ = (a.enum.map Prod.snd).map rowData := by rw [List.map_map]; rfl
    _ = a.map rowData := by rw [List.enum_map_snd]

theorem rowData_cellMask (row : MRow) (f : Cell → Bool) :
    rowData (row.map (fun c => (c.1, f c))) = rowData row := by
  show (row.map (fun c => (c.1, f c))).map (fun c => c.1) = row.map (fun c => c.1)
  rw [List.map_map]
  rfl

theorem matData_maskEq (a : MMat) (m : ℚ) : matData (maskEq a m) = matData a := by
  unfold matData maskEq
  rw [List.map_map]
  exact List.map_congr_left (fun row _ => rowData_cellMask row _)

theorem matData_maskEqMin (a : MMat) : matData (maskEqMin a) = matData a :=
  matData_maskEq a (mmin a)

theorem matData_castMat (d : Dt) (a : MMat) :
    matData (castMat d a) = (matData a).map (List.map (castQ d)) := by
  unfold matData castMat
  rw [List.map_map, List.map_map]
  refine List.map_congr_left (fun row _ => ?_)
  show (row.map (fun c => (castQ d c.1, c.2))).map (fun c => c.1) =
    (row.map (fun c => c.1)).map (castQ d)
  rw [List.map_map, List.map_map]
  rfl

theorem matData_flatten (L : List MMat) :
    matData L.flatten = (L.map matData).flatten := by
  unfold matData
  rw [List.map_flatten]

theorem matData_slice (a : MMat) (x y : ℕ) :
    matData (slice a x y) = slice (matData a) x y := by
  unfold matData
  rw [slice_map]

theorem map_castQ_idem (d : Dt) (xs : List ℚ) :
    (xs.map (castQ d)).map (castQ d) = xs.map (castQ d) := by
  rw [List.map_map]
  exact List.map_congr_left (fun x _ => castQ_idem d x)

theorem matQ_castQ_idem (d : Dt) (m : MatQ) :
    (m.map (List.map (castQ d))).map (List.map (castQ d)) =
      m.map (List.map (castQ d)) := by
  rw [List.map_map]
  exact List.map_congr_left (fun row _ => map_castQ_idem d row)

theorem setFieldData_append (a b : List (String × Field)) (nm : String) (f : Field) :
    setFieldData (a ++ b) nm f = setFieldData a nm f ++ setFieldData b nm f := by
  unfold setFieldData
  rw [List.map_append]

theorem setFieldData_not_mem {fs : List (String × Field)} {nm : String}
    (h : nm ∉ fs.map Prod.fst) (f : Field) : setFieldData fs nm f = fs := by
  unfold setFieldData
  have : fs.map (fun p => if p.1 = nm then (nm, f) else p) = fs.map id :=
    List.map_congr_left (fun p hp => by
      rw [if_neg (fun hc => h (List.mem_map.2 ⟨p, hp, hc⟩)), id])
  rw [this, List.map_id]

theorem processField_dtype {v : Radar} {smin : ℕ} {azRows : List (List ℚ)}
    {fld fld2 : Field} (h : processField v smin azRows fld = some fld2) :
    fld2.dtype = fld.dtype := by
  unfold processField at h
  cases hm : List.foldlM (fieldStep v smin azRows fld.data) [] v.sweep_number with
  | none => rw [hm] at h; exact Option.noConfusion h
  | some mats =>
    rw [hm] at h
    injection h with h
    rw [← h]

theorem forall2_mem_right {α β : Type} {R : α → β → Prop} :
    ∀ {l1 : List α} {l2 : List β}, List.Forall₂ R l1 l2 →
      ∀ b ∈ l2, ∃ a, a ∈ l1 ∧ R a b := by
  intro l1 l2 h
  induction h with
  | nil => intro b hb; exact absurd hb (List.not_mem_nil b)
  | cons hr ht ih =>
    intro b hb
    rcases List.mem_cons.1 hb with rfl | hb2
    · exact ⟨_, List.mem_cons_self _ _, hr⟩
    · obtain ⟨a, ha, har⟩ := ih b hb2
      exact ⟨a, List.mem_cons_of_mem _ ha, har⟩

theorem forall2_imp_mem {α β : Type} {R S : α → β → Prop} :
    ∀ {l1 : List α} {l2 : List β}, List.Forall₂ R l1 l2 →
      (∀ a ∈ l1, ∀ b, R a b → S a b) → List.Forall₂ S l1 l2 := by
  intro l1 l2 h
  induction h with
  | nil => intro _; exact List.Forall₂.nil
  | cons hr ht ih =>
    intro hmem
    exact List.Forall₂.cons (hmem _ (List.mem_cons_self _ _) _ hr)
      (ih (fun a ha b hab => hmem a (List.mem_cons_of_mem _ ha) b hab))

theorem forall2_lastDtype :
    ∀ {l1 l2 : List (String × Field)},
      List.Forall₂ (fun p q : String × Field => q.2.dtype = p.2.dtype) l1 l2 →
      (l2.getLast?.map (fun p => p.2.dtype)).getD .flt =
        (l1.getLast?.map (fun p => p.2.dtype)).getD .flt := by
  intro l1 l2 h
  induction h with
  | nil => rfl
  | cons hr ht ih =>
    cases ht with
    | nil => exact hr
    | cons hr2 ht2 =>
      rw [List.getLast?_cons_cons, List.getLast?_cons_cons]
      exact ih

/-- The field loop writes each processed field back in place: with unique
field names the output field list corresponds position-by-position to the
input one, each entry keeping its name and carrying the processed field. -/
theorem fieldLoop_forall2 (v : Radar) (smin : ℕ) (azRows : List (List ℚ)) :
    ∀ (fl done : List (String × Field)) (r : Radar) (dt : Option Dt)
      (r2 : Radar) (dt2 : Option Dt),
      r.fields = done ++ fl →
      ((done ++ fl).map Prod.fst).Nodup →
      fieldLoop v smin azRows fl r dt = .ok (r2, dt2) →
      ∃ processed : List (String × Field),
        r2.fields = done ++ processed ∧
        List.Forall₂ (fun p q : String × Field => q.1 = p.1 ∧
          processField v smin azRows p.2 = some q.2) fl processed := by
  intro fl
  induction fl with
  | nil =>
    intro done r dt r2 dt2 hf _ h
    simp only [fieldLoop] at h
    injection h with h
    injection h with h1 h2
    exact ⟨[], by rw [← h1, hf], List.Forall₂.nil⟩
  | cons p rest ih =>
    intro done r dt r2 dt2 hf hnd h
    obtain ⟨nm, fld⟩ := p
    simp only [fieldLoop] at h
    cases hp : processField v smin azRows fld with
    | none => rw [hp] at h; exact absurd h (by simp)
    | some fld2 =>
      rw [hp] at h
      have hnames : (done ++ (nm, fld) :: rest).map Prod.fst =
          done.map Prod.fst ++ nm :: rest.map Prod.fst := by
        rw [List.map_append, List.map_cons]
      have hnd2 : (nm :: (done.map Prod.fst ++ rest.map Prod.fst)).Nodup := by
        rw [hnames] at hnd
        exact List.nodup_middle.mp hnd
      have hnm : nm ∉ done.map Prod.fst ∧ nm ∉ rest.map Prod.fst := by
        have hno := (List.nodup_cons.mp hnd2).1
        exact ⟨fun hc => hno (List.mem_append.2 (Or.inl hc)),
          fun hc => hno (List.mem_append.2 (Or.inr hc))⟩
      have hset : setFieldData r.fields nm fld2 = done ++ (nm, fld2) :: rest := by
        rw [hf, setFieldData_append, setFieldData_not_mem hnm.1]
        congr 1
        show (if (nm, fld).1 = nm then (nm, fld2) else (nm, fld)) ::
          setFieldData rest nm fld2 = (nm, fld2) :: rest
        rw [if_pos rfl, setFieldData_not_mem hnm.2]
      have hf' : ({ r with fields := setFieldData r.fields nm fld2 }).fields =
          (done ++ [(nm, fld2)]) ++ rest := by
        show setFieldData r.fields nm fld2 = _
        rw [hset, List.append_assoc, List.singleton_append]
      have hnd' : (((done ++ [(nm, fld2)]) ++ rest).map Prod.fst).Nodup := by
        have heq : ((done ++ [(nm, fld2)]) ++ rest).map Prod.fst =
            (done ++ (nm, fld) :: rest).map Prod.fst := by
          simp
        rw [heq]
        exact hnd
      obtain ⟨processed, hr2, hfa⟩ := ih (done ++ [(nm, fld2)])
        { r with fields := setFieldData r.fields nm fld2 } (some fld.dtype) r2 dt2
        hf' hnd' h
      refine ⟨(nm, fld2) :: processed, ?_, List.Forall₂.cons ⟨rfl, hp⟩ hfa⟩
      rw [hr2, List.append_assoc, List.singleton_append]

/-- On an already-sorted azimuth slice of non-361 length, the sort of
lines 106-107 is the identity. -/
theorem azSorted_eq_of_sorted {v1 : Radar} {s : ℕ}
    (h361 : (azSlice v1 s).length ≠ 361)
    (hsort : List.Sorted (· ≤ ·) (azSlice v1 s)) :
    azSorted v1 s = azSlice v1 s := by
  unfold azSorted
  rw [dedup361_noop h361, argsort_of_sorted hsort, permute_range]

theorem eleSorted_eq_of_sorted {v1 : Radar} {s : ℕ}
    (h361 : (azSlice v1 s).length ≠ 361) (h361e : (eleSlice v1 s).length ≠ 361)
    (hsort : List.Sorted (· ≤ ·) (azSlice v1 s))
    (hlen : (eleSlice v1 s).length = (azSlice v1 s).length) :
    eleSorted v1 s = eleSlice v1 s := by
  unfold eleSorted
  rw [dedup361_noop h361e, dedup361_noop h361, argsort_of_sorted hsort, ← hlen,
    permute_range]

/-- On a volume whose sweep slices are already sorted and of the reference
length (the shape of a completed run's output), the grid-building loop
reproduces every sweep's slices unchanged. -/
theorem gridRow_second {v1 : Radar} {K s : ℕ} (h361 : K ≠ 361)
    (hsort : List.Sorted (· ≤ ·) (azSlice v1 s))
    (hlen : (azSlice v1 s).length = K)
    (hele : (eleSlice v1 s).length = K)
    (href : (refAz v1).length = K) :
    gridRow v1 (refAz v1) s =
      some (azSlice v1 s, eleSlice v1 s, List.range K) := by
  have h361a : (azSlice v1 s).length ≠ 361 := by rw [hlen]; exact h361
  have h361e : (eleSlice v1 s).length ≠ 361 := by rw [hele]; exact h361
  have hle : (eleSlice v1 s).length = (azSlice v1 s).length := by rw [hele, hlen]
  have haz := azSorted_eq_of_sorted h361a hsort
  have hel := eleSorted_eq_of_sorted h361a h361e hsort hle
  unfold gridRow
  simp only [haz, hel]
  rw [if_neg (not_not_intro (by rw [hlen, href])), dedup361_noop h361a,
    argsort_of_sorted hsort, hlen]

/-- Processing a field of a completed run's output a second time: the field
slices already match the reference length, so no interpolation triggers, the
azimuth sort is the identity, the blocks reassemble into the original data,
and the dtype cast is idempotent — the field's data values are unchanged
(only the mask can differ). -/
theorem processField_second (v1 : Radar) (n K : ℕ) (rows2 : List (List ℚ))
    (hK1 : 1 ≤ K) (h361 : K ≠ 361)
    (hn : v1.sweep_number = List.range n) (hn1 : 1 ≤ n)
    (hst : v1.sweep_start_ray_index = (List.range n).map (fun s => s * K))
    (hen : v1.sweep_end_ray_index =
      (List.range n).map (fun s => s * K + K - 1))
    (hhead : (rows2.headD []).length = K)
    (haz : ∀ s, s < n →
      List.Sorted (· ≤ ·) (azSlice v1 s) ∧ (azSlice v1 s).length = K)
    (fld fld2 : Field) (hfdlen : fld.data.length = n * K)
    (hfix : (matData fld.data).map (List.map (castQ fld.dtype)) = matData fld.data)
    (hpf : processField v1 0 rows2 fld = some fld2) :
    fld2.dtype = fld.dtype ∧ matData fld2.data = matData fld.data := by
  have hfs : ∀ s, s < n →
      fieldSlice fld.data v1 s = slice fld.data (s * K) (s * K + K) := by
    intro s hs
    unfold fieldSlice
    rw [hst, hen, getD_range_map_lt _ hs, getD_range_map_lt _ hs,
      show s * K + K - 1 + 1 = s * K + K from by omega]
  have hmul : ∀ s, s < n → s * K + K ≤ n * K := by
    intro s hs
    have h2 := Nat.mul_le_mul_right K (show s + 1 ≤ n from hs)
    rw [Nat.succ_mul] at h2
    exact h2
  have hfslen : ∀ s, s < n → (fieldSlice fld.data v1 s).length = K := by
    intro s hs
    rw [hfs s hs, slice_length, hfdlen]
    have := hmul s hs
    omega
  have hsw : ∀ s ∈ List.range n,
      resampleSweep v1 rows2 fld.data (rows2.headD []).length s =
        some (maskEqMin (maskGe (gateRD v1 fld.data s) (maxRangeOf v1 s)
          (fieldSlice fld.data v1 s))) := by
    intro s hs'
    have hs := List.mem_range.1 hs'
    have h361f : (fieldSlice fld.data v1 s).length ≠ 361 := by
      rw [hfslen s hs]; exact h361
    have hfsd : fieldSliceD fld.data v1 s = fieldSlice fld.data v1 s := by
      unfold fieldSliceD
      rw [if_neg h361f]
    have hded : dedup361 (azSlice v1 s) = azSlice v1 s :=
      dedup361_noop (by rw [(haz s hs).2]; exact h361)
    have hfsort : fieldSorted v1 fld.data s = fieldSlice fld.data v1 s := by
      unfold fieldSorted
      rw [hfsd, hded, argsort_of_sorted (haz s hs).1, (haz s hs).2,
        ← hfslen s hs, permuteRows_range]
    have hcore : resampleCore v1 rows2 fld.data (rows2.headD []).length s =
        some (gateRD v1 fld.data s,
          maskGe (gateRD v1 fld.data s) (maxRangeOf v1 s)
            (fieldSlice fld.data v1 s)) := by
      unfold resampleCore
      rw [if_neg (not_not_intro (by rw [hfsd, hfslen s hs, hhead])), hfsort]
    unfold resampleSweep
    rw [hcore]
    rfl
  have hms := seqMap_of_some
    (resampleSweep v1 rows2 fld.data (rows2.headD []).length)
    (fun s => maskEqMin (maskGe (gateRD v1 fld.data s) (maxRangeOf v1 s)
      (fieldSlice fld.data v1 s))) (List.range n) hsw
  rw [processField_char hn hn1 rows2 fld, hms] at hpf
  have hpf2 : some (Field.mk (maskEqMin (castMat fld.dtype
      (List.flatten ((List.range n).map (fun s =>
        maskEqMin (maskGe (gateRD v1 fld.data s) (maxRangeOf v1 s)
          (fieldSlice fld.data v1 s))))))) fld.dtype) = some fld2 := hpf
  injection hpf2 with hpf2
  constructor
  · rw [← hpf2]
  · rw [← hpf2]
    show matData (maskEqMin (castMat fld.dtype
      (List.flatten ((List.range n).map (fun s =>
        maskEqMin (maskGe (gateRD v1 fld.data s) (maxRangeOf v1 s)
          (fieldSlice fld.data v1 s))))))) =
      matData fld.data
    rw [matData_maskEqMin, matData_castMat, matData_flatten, List.map_map]
    have hblocks : (List.range n).map (matData ∘ fun s =>
        maskEqMin (maskGe (gateRD v1 fld.data s) (maxRangeOf v1 s)
          (fieldSlice fld.data v1 s))) =
        (List.range n).map
          (fun s => slice (matData fld.data) (s * K) (s * K + K)) := by
      refine List.map_congr_left (fun s hs' => ?_)
      have hs := List.mem_range.1 hs'
      show matData (maskEqMin (maskGe (gateRD v1 fld.data s) (maxRangeOf v1 s)
        (fieldSlice fld.data v1 s))) = _
      rw [matData_maskEqMin, matData_maskGe, hfs s hs, matData_slice]
    rw [hblocks, flatten_slices n (matData fld.data) K (by
      show (fld.data.map rowData).length = n * K
      rw [List.length_map, hfdlen])]
    exact hfix

/-! ## the claims -/

/-- Claim C8: on a volume with zero sweeps, `main` fails fast with a
configuration error (`np.min` of the empty sweep list raises before anything
else runs) and produces no partial output: the error carries the input radar
with every field, azimuth, elevation and index array unmodified. -/
theorem claim_C8 (v : Radar) (h : v.sweep_number = []) : main v = .error v := by
  unfold main
  rw [h]

/-- Witness for claim C8 on an explicit empty volume. -/
theorem claim_C8_witness : W0.sweep_number = [] ∧ main W0 = .error W0 :=
  ⟨rfl, claim_C8 W0 rfl⟩

/-- Claim C9: on a volume with exactly one sweep, `main` never completes:
recomputing the end-ray-index table (line 142) reads entry `[1]` of the
start-ray-index array, which has a single entry for a one-sweep volume, so
the access is out of bounds and the run aborts. -/
theorem claim_C9 (v : Radar) (s : ℕ) (h : v.sweep_number = [s]) :
    ∀ v2 : Radar, main v ≠ .ok v2 := by
  intro v2 hc
  unfold main at hc
  rw [h] at hc
  have hsl : sweepLoop v s =
      some ⟨some (dedup361 (azSlice v s)), [azSorted v s], [eleSorted v s],
        [argsort (dedup361 (azSlice v s))]⟩ := by
    unfold sweepLoop
    rw [h, List.foldlM_cons, sweepStep_self v s]
    rfl
  have hc2 : mainSweeps v s = .ok v2 := hc
  unfold mainSweeps at hc2
  rw [hsl] at hc2
  have hc3 : (match fieldLoop v s [azSorted v s] v.fields v none with
    | .error r => (Except.error r : Except Radar Radar)
    | .ok (w, none) => Except.error w
    | .ok (w, some dt) => mainFinish w dt
        ⟨some (dedup361 (azSlice v s)), [azSorted v s], [eleSorted v s],
          [argsort (dedup361 (azSlice v s))]⟩) = .ok v2 := hc2
  cases hfl : fieldLoop v s [azSorted v s] v.fields v none with
  | error r => rw [hfl] at hc3; exact absurd hc3 (by simp)
  | ok rdt =>
    obtain ⟨vf, odt⟩ := rdt
    rw [hfl] at hc3
    cases odt with
    | none => exact absurd hc3 (by simp)
    | some dt =>
      obtain ⟨-, hst2, -⟩ := mainFinish_ok_elim hc3
      have e1 : ([azSorted v s] : List (List ℚ)).flatten = azSorted v s := by
        simp
      have e2 : ([azSorted v s] : List (List ℚ)).headD [] = azSorted v s := rfl
      rw [e1, e2, List.length_map] at hst2
      set K := (azSorted v s).length with hKdef
      by_cases hK : K = 0
      · rw [show arange 0 K K = [] from by unfold arange; rw [if_pos hK]] at hst2
        simp at hst2
      · have ha := arange_zero (k := K) (Nat.pos_of_ne_zero hK) 1
        rw [one_mul] at ha
        rw [ha, List.length_map, List.length_range] at hst2
        omega

/-- Witness for claim C9 on an explicit one-sweep volume. -/
theorem claim_C9_witness : W1.sweep_number = [0] ∧ main W1 ≠ .ok W1 :=
  ⟨rfl, claim_C9 W1 0 rfl W1⟩

/-- Claim C7: the ray de-duplication rule is the literal 361-to-360 case:
an array of length exactly 361 loses precisely its last entry (the first 360
entries are unchanged in content and order), and an array of any other
length passes through unchanged (no general N+1 rule). -/
theorem claim_C7 {α : Type} (xs : List α) :
    (xs.length = 361 →
      dedup361 xs = xs.dropLast ∧ dedup361 xs = xs.take 360 ∧
      (dedup361 xs).length = 360) ∧
    (xs.length ≠ 361 → dedup361 xs = xs) := by
  constructor
  · intro h
    have he : dedup361 xs = xs.dropLast := by
      unfold dedup361
      rw [if_pos h]
    refine ⟨he, ?_, ?_⟩
    · rw [he, List.dropLast_eq_take, h]
    · rw [he, List.length_dropLast, h]
  · intro h
    unfold dedup361
    rw [if_neg h]

/-- Witness for claim C7: a length-361 array drops its last entry; a
length-2 array is unchanged. -/
theorem claim_C7_witness :
    dedup361 (List.range 361) = (List.range 361).dropLast ∧
    dedup361 [(5 : ℚ), 6] = [5, 6] :=
  ⟨((claim_C7 (List.range 361)).1 (by simp)).1,
    (claim_C7 [(5 : ℚ), 6]).2 (by decide)⟩

/-- Claim C6: after `main` completes, the total ray count is
`sweep_count * reference_ray_count`, the start-ray indices are
`0, K, 2K, ...` and the end-ray indices `K-1, 2K-1, ...` (stride the
reference ray count `K`); for 3 sweeps homogenized to 360 rays that is
`[0, 360, 720]` and `[359, 719, 1079]`. -/
theorem claim_C6 (v : Radar) (n : ℕ) (v2 : Radar)
    (hn : v.sweep_number = List.range n) (h : main v = .ok v2) :
    v2.nrays = n * (refAz v).length ∧
    v2.sweep_start_ray_index = (List.range n).map (fun s => s * (refAz v).length) ∧
    v2.sweep_end_ray_index =
      (List.range n).map (fun s => s * (refAz v).length + (refAz v).length - 1) ∧
    (n = 3 → (refAz v).length = 360 →
      v2.sweep_start_ray_index = [0, 360, 720] ∧
      v2.sweep_end_ray_index = [359, 719, 1079]) := by
  obtain ⟨ts, vf, hn2, hK1, hts, hlen, hshape, hfl, hv⟩ := main_ok_elim hn h
  subst hv
  refine ⟨rfl, rfl, rfl, ?_⟩
  intro h3 h360
  constructor
  · show (List.range n).map (fun s => s * (refAz v).length) = [0, 360, 720]
    rw [h3, h360]
    decide
  · show (List.range n).map (fun s => s * (refAz v).length + (refAz v).length - 1) =
      [359, 719, 1079]
    rw [h3, h360]
    decide

/-- Witness for claim C6 on an explicit two-sweep volume. -/
theorem claim_C6_witness :
    (mainOut Wok).nrays = 2 * (refAz Wok).length ∧
    (mainOut Wok).sweep_start_ray_index =
      (List.range 2).map (fun s => s * (refAz Wok).length) ∧
    (mainOut Wok).sweep_end_ray_index =
      (List.range 2).map (fun s => s * (refAz Wok).length + (refAz Wok).length - 1) ∧
    (2 = 3 → (refAz Wok).length = 360 →
      (mainOut Wok).sweep_start_ray_index = [0, 360, 720] ∧
      (mainOut Wok).sweep_end_ray_index = [359, 719, 1079]) :=
  claim_C6 Wok 2 (mainOut Wok) (by decide) (by decide)

/-- Claim C10: after `main` completes, the flattened azimuth and elevation
arrays have been cast with `astype` to the dtype of the last field processed
in the field loop; with an integer storage precision every azimuth and
elevation angle is truncated to an integer value. -/
theorem claim_C10 (v : Radar) (n : ℕ) (v2 : Radar)
    (hn : v.sweep_number = List.range n) (h : main v = .ok v2) :
    ∃ ts, seqMap (gridRow v (refAz v)) (List.range n) = some ts ∧
      v2.azimuth = (ts.map (fun t => t.1)).flatten.map (castQ (lastDtype v)) ∧
      v2.elevation = (ts.map (fun t => t.2.1)).flatten.map (castQ (lastDtype v)) ∧
      (lastDtype v = .int →
        (∀ q ∈ v2.azimuth, ∃ z : ℤ, q = (z : ℚ)) ∧
        (∀ q ∈ v2.elevation, ∃ z : ℤ, q = (z : ℚ))) := by
  obtain ⟨ts, vf, hn2, hK1, hts, hlen, hshape, hfl, hv⟩ := main_ok_elim hn h
  subst hv
  refine ⟨ts, hts, rfl, rfl, ?_⟩
  intro hint
  constructor
  · intro q hq
    obtain ⟨x, -, rfl⟩ := List.mem_map.1 hq
    rw [hint]
    show ∃ z : ℤ, truncQ x = (z : ℚ)
    unfold truncQ
    by_cases hx : 0 ≤ x
    · rw [if_pos hx]
      exact ⟨⌊x⌋, rfl⟩
    · rw [if_neg hx]
      exact ⟨⌈x⌉, rfl⟩
  · intro q hq
    obtain ⟨x, -, rfl⟩ := List.mem_map.1 hq
    rw [hint]
    show ∃ z : ℤ, truncQ x = (z : ℚ)
    unfold truncQ
    by_cases hx : 0 ≤ x
    · rw [if_pos hx]
      exact ⟨⌊x⌋, rfl⟩
    · rw [if_neg hx]
      exact ⟨⌈x⌉, rfl⟩

/-- Claim C2: after `main` completes on a well-formed volume, every sweep's
output azimuth slice is non-decreasing and has the reference (lowest) sweep's
ray count, and every field's data are exactly `sweep_count` blocks of
`reference_ray_count` rows of `range_count` gates — the sweep-major layout of
shape `(sweep_count, reference_ray_count, range_count)` — with no ragged
dimension remaining. -/
theorem claim_C2 (v : Radar) (n : ℕ) (v2 : Radar) (hwf : WF v n)
    (h : main v = .ok v2) :
    (∀ s, s < n → (azSlice v2 s).length = (refAz v).length ∧
      List.Sorted (· ≤ ·) (azSlice v2 s)) ∧
    (∀ q ∈ v2.fields, q.2.data.length = n * (refAz v).length ∧
      ∀ row ∈ q.2.data, row.length = v.ranges.length) := by
  obtain ⟨hn, hel, hun, hfields, -⟩ := hwf
  constructor
  · intro s hs
    obtain ⟨ts, hts, hrg, haz, hele⟩ := main_out_slices hn h hs
    constructor
    · rw [haz, List.length_map]
      exact (gridRow_lengths hrg).1
    · rw [haz]
      exact sorted_map_castQ _ (gridRow_az_sorted hrg)
  · obtain ⟨ts, vf, hn2, hK1, hts, hlen, hshape, hfl, hv⟩ := main_ok_elim hn h
    obtain ⟨-, -, -, -, -, -, -, -, -, -, -, hmem⟩ :=
      fieldLoop_elim v 0 (ts.map (fun t => t.1)) v.fields v none vf
        (some (lastDtype v)) hfl
    intro q hq
    have hqvf : q ∈ vf.fields := by
      rw [hv] at hq
      exact hq
    rcases hmem q hqvf with ⟨hmemv, hnot⟩ | ⟨fld, hmemv, hpf⟩
    · exact absurd hmemv (fun hc => hnot q.2 hc)
    · obtain ⟨hfd, hfw⟩ := hfields (q.1, fld) hmemv
      obtain ⟨h1, h2, -⟩ := processField_shape hn (by omega) hlen
        (fun t ht => (hshape t ht).1) hfd hfw hpf
      exact ⟨h1, h2⟩

/-- Witness for claim C2 on an explicit well-formed two-sweep volume. -/
theorem claim_C2_witness :
    WF Wok 2 ∧
    ((∀ s, s < 2 → (azSlice (mainOut Wok) s).length = (refAz Wok).length ∧
      List.Sorted (· ≤ ·) (azSlice (mainOut Wok) s)) ∧
    (∀ q ∈ (mainOut Wok).fields,
      q.2.data.length = 2 * (refAz Wok).length ∧
      ∀ row ∈ q.2.data, row.length = Wok.ranges.length)) :=
  ⟨by decide, claim_C2 Wok 2 (mainOut Wok) (by decide) (by decide)⟩

/-- Claim C3: for every sweep, if the sorted azimuth length differs from the
reference length the grid row becomes `np.linspace` from the sweep's first to
its last sorted azimuth with reference length, and the elevation row is
`np.resize` (cyclic repetition, not interpolation) to reference length; when
the lengths match, the rows are the sorted arrays unchanged.  These rows are
exactly what lands in the output's per-sweep azimuth/elevation slices (up to
the final dtype cast of line 136, see claim C10). -/
theorem claim_C3 (v : Radar) (n : ℕ) (v2 : Radar)
    (hn : v.sweep_number = List.range n) (h : main v = .ok v2)
    (s : ℕ) (hs : s < n) :
    ∃ t : List ℚ × List ℚ × List ℕ,
      gridRow v (refAz v) s = some t ∧
      azSlice v2 s = t.1.map (castQ (lastDtype v)) ∧
      eleSlice v2 s = t.2.1.map (castQ (lastDtype v)) ∧
      ((azSorted v s).length ≠ (refAz v).length →
        t.1 = linspace ((azSorted v s).headD 0) ((azSorted v s).getLastD 0)
          (refAz v).length ∧
        t.2.1 = npResize (eleSorted v s) (refAz v).length) ∧
      ((azSorted v s).length = (refAz v).length →
        t.1 = azSorted v s ∧ t.2.1 = eleSorted v s) := by
  obtain ⟨ts, hts, hrg, haz, hele⟩ := main_out_slices hn h hs
  refine ⟨ts.getD s ([], [], []), hrg, haz, hele, ?_, ?_⟩
  · intro hne
    exact gridRow_of_ne hrg hne
  · intro heq
    exact gridRow_of_eq hrg heq

/-- Witness for claim C3 on an explicit volume, sweep 1. -/
theorem claim_C3_witness :
    ∃ t : List ℚ × List ℚ × List ℕ,
      gridRow Wok (refAz Wok) 1 = some t ∧
      azSlice (mainOut Wok) 1 = t.1.map (castQ (lastDtype Wok)) ∧
      eleSlice (mainOut Wok) 1 = t.2.1.map (castQ (lastDtype Wok)) ∧
      ((azSorted Wok 1).length ≠ (refAz Wok).length →
        t.1 = linspace ((azSorted Wok 1).headD 0) ((azSorted Wok 1).getLastD 0)
          (refAz Wok).length ∧
        t.2.1 = npResize (eleSorted Wok 1) (refAz Wok).length) ∧
      ((azSorted Wok 1).length = (refAz Wok).length →
        t.1 = azSorted Wok 1 ∧ t.2.1 = eleSorted Wok 1) :=
  claim_C3 Wok 2 (mainOut Wok) (by decide) (by decide) 1 (by decide)

/-- Claim C5: for every field, every gate equal to the minimum value of its
sweep's resampled field array (the post-range-masking array of line 119,
whose masked minimum line 122 takes — a genuine minimum measurement
included) is masked in the final output; and the assembled per-field array
is re-masked once more by the same rule using the volume-wide minimum
(line 133), which is the final operation applied to the field. -/
theorem claim_C5 (v : Radar) (n : ℕ) (v2 : Radar) (hwf : WF v n)
    (h : main v = .ok v2) :
    ∀ q ∈ v2.fields, ∃ (fld : Field) (ts : List (List ℚ × List ℚ × List ℕ))
      (ps : List (MatQ × MMat)),
      (q.1, fld) ∈ v.fields ∧
      seqMap (gridRow v (refAz v)) (List.range n) = some ts ∧
      seqMap (resampleCore v (ts.map (fun t => t.1)) fld.data
        ((ts.map (fun t => t.1)).headD []).length) (List.range n) = some ps ∧
      q.2.data = maskEqMin (castMat fld.dtype
        ((ps.map (fun p => maskEqMin p.2)).flatten)) ∧
      (∀ s, s < n → ∀ i j, i < (ps.getD s ([], [])).2.length →
        j < ((ps.getD s ([], [])).2.getD i []).length →
        (cellAt (ps.getD s ([], [])).2 i j).1 = mmin (ps.getD s ([], [])).2 →
        (cellAt q.2.data (s * (refAz v).length + i) j).2 = true) ∧
      (∀ i j,
        i < (castMat fld.dtype
          ((ps.map (fun p => maskEqMin p.2)).flatten)).length →
        j < ((castMat fld.dtype
          ((ps.map (fun p => maskEqMin p.2)).flatten)).getD i []).length →
        (cellAt (castMat fld.dtype
          ((ps.map (fun p => maskEqMin p.2)).flatten)) i j).1 =
          mmin (castMat fld.dtype ((ps.map (fun p => maskEqMin p.2)).flatten)) →
        (cellAt q.2.data i j).2 = true) := by
  obtain ⟨hn, hel, hun, hfields, -⟩ := hwf
  obtain ⟨ts, vf, hn2, hK1, hts, hlen, hshape, hfl, hv⟩ := main_ok_elim hn h
  obtain ⟨-, -, -, -, -, -, -, -, -, -, -, hmem⟩ :=
    fieldLoop_elim v 0 (ts.map (fun t => t.1)) v.fields v none vf
      (some (lastDtype v)) hfl
  intro q hq
  have hqvf : q ∈ vf.fields := by
    rw [hv] at hq
    exact hq
  rcases hmem q hqvf with ⟨hmemv, hnot⟩ | ⟨fld, hmemv, hpf⟩
  · exact absurd hmemv (fun hc => hnot q.2 hc)
  obtain ⟨hfd, hfw⟩ := hfields (q.1, fld) hmemv
  rw [processField_char hn (by omega) _ fld] at hpf
  have hsw : seqMap (resampleSweep v (ts.map (fun t => t.1)) fld.data
      ((ts.map (fun t => t.1)).headD []).length) (List.range n) =
      (seqMap (resampleCore v (ts.map (fun t => t.1)) fld.data
        ((ts.map (fun t => t.1)).headD []).length) (List.range n)).map
        (List.map (fun p => maskEqMin p.2)) :=
    seqMap_map _ _ _
  rw [hsw] at hpf
  cases hps : seqMap (resampleCore v (ts.map (fun t => t.1)) fld.data
      ((ts.map (fun t => t.1)).headD []).length) (List.range n) with
  | none => rw [hps] at hpf; exact Option.noConfusion hpf
  | some ps =>
    rw [hps] at hpf
    injection hpf with hpf
    have hdata : q.2.data = maskEqMin (castMat fld.dtype
        ((ps.map (fun p => maskEqMin p.2)).flatten)) := by
      rw [← hpf]
    have hpslen : ps.length = n := by
      rw [seqMap_length _ hps, List.length_range]
    have hrowK : ∀ r ∈ ts.map (fun t => t.1), r.length = (refAz v).length := by
      intro r hr
      obtain ⟨t, ht, rfl⟩ := List.mem_map.1 hr
      exact (hshape t ht).1
    have hhead : ((ts.map (fun t => t.1)).headD []).length = (refAz v).length := by
      cases hts0 : ts with
      | nil => rw [hts0] at hlen; rw [List.length_nil] at hlen; omega
      | cons t0 ts' =>
        show t0.1.length = (refAz v).length
        exact (hshape t0 (by rw [hts0]; exact List.mem_cons_self _ _)).1
    have hcore : ∀ s, s < n → resampleCore v (ts.map (fun t => t.1)) fld.data
        ((ts.map (fun t => t.1)).headD []).length s = some (ps.getD s ([], [])) := by
      intro s hs
      have hg := seqMap_getD _ hps s (by rw [List.length_range]; exact hs) ([], [])
      rw [getD_eq_getElem _ 0 (by rw [List.length_range]; exact hs),
        List.getElem_range] at hg
      exact hg
    have hcoreshape : ∀ s, s < n → (ps.getD s ([], [])).2.length = (refAz v).length := by
      intro s hs
      exact (resampleCore_shape hrowK hhead hfd hfw
        (by rw [List.length_map, hlen]; exact hs) (hcore s hs)).1
    have hmatK : ∀ mat ∈ ps.map (fun p => maskEqMin p.2),
        mat.length = (refAz v).length := by
      intro mat hmat
      obtain ⟨p, hp, rfl⟩ := List.mem_map.1 hmat
      obtain ⟨u, hu, hru⟩ := seqMap_mem _ hps p hp
      rw [length_maskEqMin]
      exact (resampleCore_shape hrowK hhead hfd hfw
        (by rw [List.length_map, hlen]; exact List.mem_range.1 hu) hru).1
    refine ⟨fld, ts, ps, hmemv, hts, hps, hdata, ?_, ?_⟩
    · intro s hs i j hi hj hval
      have hmaskstep : (cellAt (maskEqMin (ps.getD s ([], [])).2) i j).2 = true := by
        rw [cellAt_maskEqMin _ hi hj, hval]
        simp
      have hgetms : (ps.map (fun p => maskEqMin p.2)).getD s [] =
          maskEqMin (ps.getD s ([], [])).2 :=
        getD_map_lt _ (by rw [hpslen]; exact hs) ([], []) []
      have hflatcell : cellAt ((ps.map (fun p => maskEqMin p.2)).flatten)
          (s * (refAz v).length + i) j =
          cellAt (maskEqMin (ps.getD s ([], [])).2) i j := by
        rw [← hgetms]
        exact cellAt_flatten_uniform hmatK
          (by rw [List.length_map, hpslen]; exact hs)
          (lt_of_lt_of_eq hi (hcoreshape s hs))
      rw [hdata]
      refine mask_mono_maskEq _ _ ?_
      rw [mask_castMat, hflatcell]
      exact hmaskstep
    · intro i j hi hj hval
      rw [hdata, cellAt_maskEqMin _ hi hj, hval]
      simp

/-- Witness for claim C5 on an explicit well-formed volume. -/
theorem claim_C5_witness :
    WF Wok 2 ∧
    ∀ q ∈ (mainOut Wok).fields,
      ∃ (fld : Field) (ts : List (List ℚ × List ℚ × List ℕ))
        (ps : List (MatQ × MMat)),
      (q.1, fld) ∈ Wok.fields ∧
      seqMap (gridRow Wok (refAz Wok)) (List.range 2) = some ts ∧
      seqMap (resampleCore Wok (ts.map (fun t => t.1)) fld.data
        ((ts.map (fun t => t.1)).headD []).length) (List.range 2) = some ps ∧
      q.2.data = maskEqMin (castMat fld.dtype
        ((ps.map (fun p => maskEqMin p.2)).flatten)) ∧
      (∀ s, s < 2 → ∀ i j, i < (ps.getD s ([], [])).2.length →
        j < ((ps.getD s ([], [])).2.getD i []).length →
        (cellAt (ps.getD s ([], [])).2 i j).1 = mmin (ps.getD s ([], [])).2 →
        (cellAt q.2.data (s * (refAz Wok).length + i) j).2 = true) ∧
      (∀ i j,
        i < (castMat fld.dtype
          ((ps.map (fun p => maskEqMin p.2)).flatten)).length →
        j < ((castMat fld.dtype
          ((ps.map (fun p => maskEqMin p.2)).flatten)).getD i []).length →
        (cellAt (castMat fld.dtype
          ((ps.map (fun p => maskEqMin p.2)).flatten)) i j).1 =
          mmin (castMat fld.dtype ((ps.map (fun p => maskEqMin p.2)).flatten)) →
        (cellAt q.2.data i j).2 = true) :=
  ⟨by decide, claim_C5 Wok 2 (mainOut Wok) (by decide) (by decide)⟩

theorem resampleCore_maskGe {v : Radar} {azRows : List (List ℚ)} {fdata : MMat}
    {refLen s : ℕ} {p : MatQ × MMat}
    (h : resampleCore v azRows fdata refLen s = some p) :
    ∃ a : MMat, p.2 = maskGe p.1 (maxRangeOf v s) a := by
  simp only [resampleCore] at h
  split at h
  · split at h
    · exact Option.noConfusion h
    · injection h with h
      rw [← h]
      exact ⟨_, rfl⟩
  · injection h with h
    rw [← h]
    exact ⟨_, rfl⟩

/-- Counterexample to claim C4 as stated: in volume `Wc4` the gate at sweep 0,
ray 0, gate 0 has computed range 99 = R - 1 (unambiguous range R = 100) and
holds the sweep minimum value, so the minimum-value sentinel masks it — a
gate strictly below the unambiguous range is masked, refuting
"masked exactly when range ≥ R" and "a gate at range R-1 is unmasked". -/
theorem claim_C4_counterexample :
    main Wc4 = .ok (mainOut Wc4) ∧
    ((Wc4.gate_r.getD 0 []).getD 0 []).getD 0 0 = 99 ∧
    maxRangeOf Wc4 0 = 100 ∧
    (cellAt (headFieldData (mainOut Wc4)) 0 0).2 = true :=
  ⟨by decide, by decide, by decide, by decide⟩

/-- Claim C4 (amended): for every sweep and field, every gate whose
(possibly resampled) range is greater than or equal to that sweep's
unambiguous-range scalar (taken from the first ray of the sweep's slice,
boundary inclusive at `≥ R`) is masked invalid in the output.  The converse
of the original claim fails: a gate below the unambiguous range may still be
masked by the input mask or by the minimum-value sentinel rules (see the
counterexample and claim C5). -/
theorem claim_C4 (v : Radar) (n : ℕ) (v2 : Radar) (hwf : WF v n)
    (h : main v = .ok v2) :
    ∀ q ∈ v2.fields, ∃ (fld : Field) (ts : List (List ℚ × List ℚ × List ℕ))
      (ps : List (MatQ × MMat)),
      (q.1, fld) ∈ v.fields ∧
      seqMap (gridRow v (refAz v)) (List.range n) = some ts ∧
      seqMap (resampleCore v (ts.map (fun t => t.1)) fld.data
        ((ts.map (fun t => t.1)).headD []).length) (List.range n) = some ps ∧
      ∀ s, s < n → ∀ i j, i < (ps.getD s ([], [])).2.length →
        j < ((ps.getD s ([], [])).2.getD i []).length →
        maxRangeOf v s ≤ entryAt (ps.getD s ([], [])).1 i j →
        (cellAt q.2.data (s * (refAz v).length + i) j).2 = true := by
  obtain ⟨hn, hel, hun, hfields, -⟩ := hwf
  obtain ⟨ts, vf, hn2, hK1, hts, hlen, hshape, hfl, hv⟩ := main_ok_elim hn h
  obtain ⟨-, -, -, -, -, -, -, -, -, -, -, hmem⟩ :=
    fieldLoop_elim v 0 (ts.map (fun t => t.1)) v.fields v none vf
      (some (lastDtype v)) hfl
  intro q hq
  have hqvf : q ∈ vf.fields := by
    rw [hv] at hq
    exact hq
  rcases hmem q hqvf with ⟨hmemv, hnot⟩ | ⟨fld, hmemv, hpf⟩
  · exact absurd hmemv (fun hc => hnot q.2 hc)
  obtain ⟨hfd, hfw⟩ := hfields (q.1, fld) hmemv
  rw [processField_char hn (by omega) _ fld] at hpf
  have hsw : seqMap (resampleSweep v (ts.map (fun t => t.1)) fld.data
      ((ts.map (fun t => t.1)).headD []).length) (List.range n) =
      (seqMap (resampleCore v (ts.map (fun t => t.1)) fld.data
        ((ts.map (fun t => t.1)).headD []).length) (List.range n)).map
        (List.map (fun p => maskEqMin p.2)) :=
    seqMap_map _ _ _
  rw [hsw] at hpf
  cases hps : seqMap (resampleCore v (ts.map (fun t => t.1)) fld.data
      ((ts.map (fun t => t.1)).headD []).length) (List.range n) with
  | none => rw [hps] at hpf; exact Option.noConfusion hpf
  | some ps =>
    rw [hps] at hpf
    injection hpf with hpf
    have hdata : q.2.data = maskEqMin (castMat fld.dtype
        ((ps.map (fun p => maskEqMin p.2)).flatten)) := by
      rw [← hpf]
    have hpslen : ps.length = n := by
      rw [seqMap_length _ hps, List.length_range]
    have hrowK : ∀ r ∈ ts.map (fun t => t.1), r.length = (refAz v).length := by
      intro r hr
      obtain ⟨t, ht, rfl⟩ := List.mem_map.1 hr
      exact (hshape t ht).1
    have hhead : ((ts.map (fun t => t.1)).headD []).length = (refAz v).length := by
      cases hts0 : ts with
      | nil => rw [hts0] at hlen; rw [List.length_nil] at hlen; omega
      | cons t0 ts' =>
        show t0.1.length = (refAz v).length
        exact (hshape t0 (by rw [hts0]; exact List.mem_cons_self _ _)).1
    have hcore : ∀ s, s < n → resampleCore v (ts.map (fun t => t.1)) fld.data
        ((ts.map (fun t => t.1)).headD []).length s = some (ps.getD s ([], [])) := by
      intro s hs
      have hg := seqMap_getD _ hps s (by rw [List.length_range]; exact hs) ([], [])
      rw [getD_eq_getElem _ 0 (by rw [List.length_range]; exact hs),
        List.getElem_range] at hg
      exact hg
    have hcoreshape : ∀ s, s < n →
        (ps.getD s ([], [])).2.length = (refAz v).length := by
      intro s hs
      exact (resampleCore_shape hrowK hhead hfd hfw
        (by rw [List.length_map, hlen]; exact hs) (hcore s hs)).1
    have hmatK : ∀ mat ∈ ps.map (fun p => maskEqMin p.2),
        mat.length = (refAz v).length := by
      intro mat hmat
      obtain ⟨p, hp, rfl⟩ := List.mem_map.1 hmat
      obtain ⟨u, hu, hru⟩ := seqMap_mem _ hps p hp
      rw [length_maskEqMin]
      exact (resampleCore_shape hrowK hhead hfd hfw
        (by rw [List.length_map, hlen]; exact List.mem_range.1 hu) hru).1
    refine ⟨fld, ts, ps, hmemv, hts, hps, ?_⟩
    intro s hs i j hi hj hval
    obtain ⟨a, ha⟩ := resampleCore_maskGe (hcore s hs)
    have hia : i < a.length := by
      have := hi
      rw [ha, length_maskGe] at this
      exact this
    have hja : j < (a.getD i []).length := by
      have := hj
      rw [ha, rowlen_maskGe _ _ _ hia] at this
      exact this
    have hmaskcore : (cellAt (ps.getD s ([], [])).2 i j).2 = true := by
      rw [ha, cellAt_maskGe _ _ _ hia hja]
      have hval2 : maxRangeOf v s ≤
          ((ps.getD s ([], [])).1.getD i []).getD j 0 := hval
      show ((cellAt a i j).2 ||
        decide (maxRangeOf v s ≤ ((ps.getD s ([], [])).1.getD i []).getD j 0)) = true
      rw [decide_eq_true hval2, Bool.or_true]
    have hmaskstep : (cellAt (maskEqMin (ps.getD s ([], [])).2) i j).2 = true :=
      mask_mono_maskEq _ _ hmaskcore
    have hgetms : (ps.map (fun p => maskEqMin p.2)).getD s [] =
        maskEqMin (ps.getD s ([], [])).2 :=
      getD_map_lt _ (by rw [hpslen]; exact hs) ([], []) []
    have hflatcell : cellAt ((ps.map (fun p => maskEqMin p.2)).flatten)
        (s * (refAz v).length + i) j =
        cellAt (maskEqMin (ps.getD s ([], [])).2) i j := by
      rw [← hgetms]
      exact cellAt_flatten_uniform hmatK
        (by rw [List.length_map, hpslen]; exact hs)
        (lt_of_lt_of_eq hi (hcoreshape s hs))
    rw [hdata]
    refine mask_mono_maskEq _ _ ?_
    rw [mask_castMat, hflatcell]
    exact hmaskstep

/-- Witness for the amended claim C4 on an explicit well-formed volume. -/
theorem claim_C4_witness :
    WF Wc4 2 ∧
    ∀ q ∈ (mainOut Wc4).fields,
      ∃ (fld : Field) (ts : List (List ℚ × List ℚ × List ℕ))
        (ps : List (MatQ × MMat)),
      (q.1, fld) ∈ Wc4.fields ∧
      seqMap (gridRow Wc4 (refAz Wc4)) (List.range 2) = some ts ∧
      seqMap (resampleCore Wc4 (ts.map (fun t => t.1)) fld.data
        ((ts.map (fun t => t.1)).headD []).length) (List.range 2) = some ps ∧
      ∀ s, s < 2 → ∀ i j, i < (ps.getD s ([], [])).2.length →
        j < ((ps.getD s ([], [])).2.getD i []).length →
        maxRangeOf Wc4 s ≤ entryAt (ps.getD s ([], [])).1 i j →
        (cellAt q.2.data (s * (refAz Wc4).length + i) j).2 = true :=
  ⟨by decide, claim_C4 Wc4 2 (mainOut Wc4) (by decide) (by decide)⟩

/-- Witness for claim C10 on an explicit volume whose single field has
integer dtype and whose azimuth and elevation angles are fractional. -/
theorem claim_C10_witness :
    ∃ ts, seqMap (gridRow Wint (refAz Wint)) (List.range 2) = some ts ∧
      (mainOut Wint).azimuth =
        (ts.map (fun t => t.1)).flatten.map (castQ (lastDtype Wint)) ∧
      (mainOut Wint).elevation =
        (ts.map (fun t => t.2.1)).flatten.map (castQ (lastDtype Wint)) ∧
      (lastDtype Wint = .int →
        (∀ q ∈ (mainOut Wint).azimuth, ∃ z : ℤ, q = (z : ℚ)) ∧
        (∀ q ∈ (mainOut Wint).elevation, ∃ z : ℤ, q = (z : ℚ))) :=
  claim_C10 Wint 2 (mainOut Wint) (by decide) (by decide)

/-- Claim C1 (amended): literal idempotence is false — see
`claim_C1_counterexample`, an already-homogeneous well-formed volume on which
the second run's fields are not bit-identical, because the minimum-value
re-masking of lines 122/133 masks additional gates on the second pass.  What
does hold, proved here: on any well-formed volume without the 361-ray quirk
whose first and second runs both complete, the second run reproduces the
first run's azimuth, elevation, ray count and ray-index tables bit-for-bit,
and every field keeps its name, dtype and underlying data values
position-by-position; only the masks can drift. -/
theorem claim_C1 (v : Radar) (n : ℕ) (v1 v2 : Radar) (hwf : WF v n)
    (h361 : (refAz v).length ≠ 361)
    (h1 : main v = .ok v1) (h2 : main v1 = .ok v2) :
    v2.azimuth = v1.azimuth ∧ v2.elevation = v1.elevation ∧
    v2.nrays = v1.nrays ∧
    v2.sweep_start_ray_index = v1.sweep_start_ray_index ∧
    v2.sweep_end_ray_index = v1.sweep_end_ray_index ∧
    List.Forall₂ (fun p q : String × Field =>
      q.1 = p.1 ∧ q.2.dtype = p.2.dtype ∧ matData q.2.data = matData p.2.data)
      v1.fields v2.fields := by
  obtain ⟨hn, hel, hun, hfields, hnodup⟩ := hwf
  obtain ⟨ts, vf, hn2, hK1, hts, hlen, hshape, hfl, hv⟩ := main_ok_elim hn h1
  obtain ⟨e1, -, -, -, -, -, -, -, -, e10, -, -⟩ :=
    fieldLoop_elim v 0 (ts.map (fun t => t.1)) v.fields v none vf
      (some (lastDtype v)) hfl
  have hv1az : v1.azimuth =
      (ts.map (fun t => t.1)).flatten.map (castQ (lastDtype v)) := by rw [hv]
  have hv1el : v1.elevation =
      (ts.map (fun t => t.2.1)).flatten.map (castQ (lastDtype v)) := by rw [hv]
  have hv1nr : v1.nrays = n * (refAz v).length := by rw [hv]
  have hv1st : v1.sweep_start_ray_index =
      (List.range n).map (fun s => s * (refAz v).length) := by rw [hv]
  have hv1en : v1.sweep_end_ray_index =
      (List.range n).map
        (fun s => s * (refAz v).length + (refAz v).length - 1) := by rw [hv]
  have hv1f : v1.fields = vf.fields := by rw [hv]
  have hv1sn : v1.sweep_number = List.range n := by
    rw [hv]
    show vf.sweep_number = List.range n
    rw [e1, hn]
  have hazrows : ∀ r ∈ ts.map (fun t => t.1), r.length = (refAz v).length := by
    intro r hr
    obtain ⟨t, ht, rfl⟩ := List.mem_map.1 hr
    exact (hshape t ht).1
  have helerows : ∀ r ∈ ts.map (fun t => t.2.1), r.length = (refAz v).length := by
    intro r hr
    obtain ⟨t, ht, rfl⟩ := List.mem_map.1 hr
    exact (hshape t ht).2.1
  have hazflat : v1.azimuth.length = n * (refAz v).length := by
    rw [hv1az, List.length_map, flatten_length_uniform hazrows,
      List.length_map, hlen]
  have helflat : v1.elevation.length = n * (refAz v).length := by
    rw [hv1el, List.length_map, flatten_length_uniform helerows,
      List.length_map, hlen]
  have hazslice : ∀ s, s < n → List.Sorted (· ≤ ·) (azSlice v1 s) ∧
      (azSlice v1 s).length = (refAz v).length ∧
      (eleSlice v1 s).length = (refAz v).length := by
    intro s hs
    obtain ⟨ts', hts', hrg', haz', hele'⟩ := main_out_slices hn h1 hs
    rw [hts] at hts'
    injection hts' with hts''
    subst hts''
    have hmem : ts.getD s ([], [], []) ∈ ts :=
      getD_lt_mem _ (by rw [hlen]; exact hs)
    refine ⟨?_, ?_, ?_⟩
    · rw [haz']
      exact sorted_map_castQ _ (hshape _ hmem).2.2
    · rw [haz', List.length_map]
      exact (hshape _ hmem).1
    · rw [hele', List.length_map]
      exact (hshape _ hmem).2.1
  obtain ⟨proc1, hvff, hfa1⟩ := fieldLoop_forall2 v 0 (ts.map (fun t => t.1))
    v.fields [] v none vf (some (lastDtype v)) (by rw [List.nil_append])
    (by rw [List.nil_append]; exact hnodup) hfl
  have hvff' : vf.fields = proc1 := by rw [hvff, List.nil_append]
  have hdtypes : List.Forall₂ (fun p q : String × Field => q.2.dtype = p.2.dtype)
      v.fields proc1 :=
    List.Forall₂.imp (fun a b hab => processField_dtype hab.2) hfa1
  have hlast : lastDtype v1 = lastDtype v := by
    unfold lastDtype
    rw [hv1f, hvff']
    exact forall2_lastDtype hdtypes
  have hnodup1 : (v1.fields.map Prod.fst).Nodup := by
    rw [hv1f, e10]
    exact hnodup
  obtain ⟨ts2, vf2, -, -, hts2, -, -, hfl2, hv2⟩ := main_ok_elim hv1sn h2
  have hrefAz1 : refAz v1 = azSlice v1 0 :=
    dedup361_noop (by rw [(hazslice 0 (by omega)).2.1]; exact h361)
  have hrefK : (refAz v1).length = (refAz v).length := by
    rw [hrefAz1]
    exact (hazslice 0 (by omega)).2.1
  have hg2 : ∀ s ∈ List.range n, gridRow v1 (refAz v1) s =
      some (azSlice v1 s, eleSlice v1 s, List.range (refAz v).length) := by
    intro s hs'
    have hs := List.mem_range.1 hs'
    exact gridRow_second h361 (hazslice s hs).1 (hazslice s hs).2.1
      (hazslice s hs).2.2 hrefK
  have hts2' : ts2 = (List.range n).map (fun s =>
      (azSlice v1 s, eleSlice v1 s, List.range (refAz v).length)) :=
    Option.some.inj (hts2.symm.trans (seqMap_of_some (gridRow v1 (refAz v1))
      (fun s => (azSlice v1 s, eleSlice v1 s, List.range (refAz v).length))
      (List.range n) hg2))
  subst hts2'
  have hrows2 : ((List.range n).map (fun s => (azSlice v1 s, eleSlice v1 s,
      List.range (refAz v).length))).map (fun t => t.1) =
      (List.range n).map (fun s => azSlice v1 s) := by
    rw [List.map_map]
    rfl
  have hrows2e : ((List.range n).map (fun s => (azSlice v1 s, eleSlice v1 s,
      List.range (refAz v).length))).map (fun t => t.2.1) =
      (List.range n).map (fun s => eleSlice v1 s) := by
    rw [List.map_map]
    rfl
  rw [hrows2] at hfl2
  rw [hrows2, hrows2e] at hv2
  have hslice_az : ∀ s ∈ List.range n, azSlice v1 s =
      slice v1.azimuth (s * (refAz v).length)
        (s * (refAz v).length + (refAz v).length) := by
    intro s hs'
    have hs := List.mem_range.1 hs'
    unfold azSlice
    rw [hv1st, hv1en, getD_range_map_lt _ hs, getD_range_map_lt _ hs,
      show s * (refAz v).length + (refAz v).length - 1 + 1 =
        s * (refAz v).length + (refAz v).length from by omega]
  have hslice_el : ∀ s ∈ List.range n, eleSlice v1 s =
      slice v1.elevation (s * (refAz v).length)
        (s * (refAz v).length + (refAz v).length) := by
    intro s hs'
    have hs := List.mem_range.1 hs'
    unfold eleSlice
    rw [hv1st, hv1en, getD_range_map_lt _ hs, getD_range_map_lt _ hs,
      show s * (refAz v).length + (refAz v).length - 1 + 1 =
        s * (refAz v).length + (refAz v).length from by omega]
  have hcast1 : v1.azimuth.map (castQ (lastDtype v)) = v1.azimuth := by
    rw [hv1az, List.map_map]
    exact List.map_congr_left (fun x _ => castQ_idem (lastDtype v) x)
  have hcast2 : v1.elevation.map (castQ (lastDtype v)) = v1.elevation := by
    rw [hv1el, List.map_map]
    exact List.map_congr_left (fun x _ => castQ_idem (lastDtype v) x)
  have hv2az : v2.azimuth = v1.azimuth := by
    rw [hv2]
    show (((List.range n).map (fun s => azSlice v1 s)).flatten).map
      (castQ (lastDtype v1)) = v1.azimuth
    have hone : (List.range n).map (fun s => azSlice v1 s) =
        (List.range n).map (fun s => slice v1.azimuth (s * (refAz v).length)
          (s * (refAz v).length + (refAz v).length)) :=
      List.map_congr_left hslice_az
    rw [hone, flatten_slices n v1.azimuth (refAz v).length hazflat, hlast]
    exact hcast1
  have hv2el : v2.elevation = v1.elevation := by
    rw [hv2]
    show (((List.range n).map (fun s => eleSlice v1 s)).flatten).map
      (castQ (lastDtype v1)) = v1.elevation
    have hone : (List.range n).map (fun s => eleSlice v1 s) =
        (List.range n).map (fun s => slice v1.elevation (s * (refAz v).length)
          (s * (refAz v).length + (refAz v).length)) :=
      List.map_congr_left hslice_el
    rw [hone, flatten_slices n v1.elevation (refAz v).length helflat, hlast]
    exact hcast2
  have hv2nr : v2.nrays = v1.nrays := by
    rw [hv2, hv1nr]
    show n * (refAz v1).length = n * (refAz v).length
    rw [hrefK]
  have hv2st : v2.sweep_start_ray_index = v1.sweep_start_ray_index := by
    rw [hv2, hv1st]
    show (List.range n).map (fun s => s * (refAz v1).length) = _
    simp only [hrefK]
  have hv2en : v2.sweep_end_ray_index = v1.sweep_end_ray_index := by
    rw [hv2, hv1en]
    show (List.range n).map
      (fun s => s * (refAz v1).length + (refAz v1).length - 1) = _
    simp only [hrefK]
  obtain ⟨proc2, hvf2f, hfa2⟩ := fieldLoop_forall2 v1 0
    ((List.range n).map (fun s => azSlice v1 s)) v1.fields [] v1 none vf2
    (some (lastDtype v1)) (by rw [List.nil_append])
    (by rw [List.nil_append]; exact hnodup1) hfl2
  have hv2f : v2.fields = proc2 := by
    rw [hv2]
    show vf2.fields = proc2
    rw [hvf2f, List.nil_append]
  have hhead2 : (((List.range n).map (fun s => azSlice v1 s)).headD []).length =
      (refAz v).length := by
    obtain ⟨m, hm⟩ : ∃ m, n = m + 1 := ⟨n - 1, by omega⟩
    rw [hm, List.range_succ_eq_map]
    show (azSlice v1 0).length = (refAz v).length
    exact (hazslice 0 (by omega)).2.1
  refine ⟨hv2az, hv2el, hv2nr, hv2st, hv2en, ?_⟩
  rw [hv2f]
  refine forall2_imp_mem hfa2 ?_
  intro p hp q hrel
  obtain ⟨hname, hpf2⟩ := hrel
  have hp1 : p ∈ proc1 := by rw [hv1f, hvff'] at hp; exact hp
  obtain ⟨p0, hp0, hname0, hpf1⟩ := forall2_mem_right hfa1 p hp1
  obtain ⟨hfd0, hfw0⟩ := hfields p0 hp0
  obtain ⟨hplen, hprows, hpdt⟩ := processField_shape hn (by omega) hlen
    (fun t ht => (hshape t ht).1) hfd0 hfw0 hpf1
  have hfix : (matData p.2.data).map (List.map (castQ p.2.dtype)) =
      matData p.2.data := by
    rw [processField_char hn (by omega) _ p0.2] at hpf1
    cases hms1 : seqMap (resampleSweep v (ts.map (fun t => t.1)) p0.2.data
        ((ts.map (fun t => t.1)).headD []).length) (List.range n) with
    | none => rw [hms1] at hpf1; exact Option.noConfusion hpf1
    | some ms1 =>
      rw [hms1] at hpf1
      have hpf1' : some (Field.mk (maskEqMin (castMat p0.2.dtype ms1.flatten))
          p0.2.dtype) = some p.2 := hpf1
      injection hpf1' with hpf1'
      rw [← hpf1']
      show (matData (maskEqMin (castMat p0.2.dtype ms1.flatten))).map
          (List.map (castQ p0.2.dtype)) =
        matData (maskEqMin (castMat p0.2.dtype ms1.flatten))
      rw [matData_maskEqMin, matData_castMat]
      exact matQ_castQ_idem p0.2.dtype (matData ms1.flatten)
  have hsec := processField_second v1 n (refAz v).length
    ((List.range n).map (fun s => azSlice v1 s)) hK1 h361 hv1sn (by omega)
    hv1st hv1en hhead2 (fun s hs => ⟨(hazslice s hs).1, (hazslice s hs).2.1⟩)
    p.2 q.2 hplen hfix hpf2
  exact ⟨hname, hsec.1, hsec.2⟩

/-- Counterexample to claim C1 as stated: `Wok` is well formed and already
homogeneous (both sweeps' sorted ray counts equal the reference count, so no
interpolation or resizing triggers) and both runs of `main` complete, yet the
second run's fields are not bit-identical to the first run's — the
minimum-value re-masking (lines 122/133) masks additional gates on the
second pass.  `claim_C1` proves that only the masks can drift. -/
theorem claim_C1_counterexample :
    WF Wok 2 ∧
    (azSorted Wok 0).length = (refAz Wok).length ∧
    (azSorted Wok 1).length = (refAz Wok).length ∧
    main Wok = .ok (mainOut Wok) ∧
    main (mainOut Wok) = .ok (mainOut (mainOut Wok)) ∧
    (mainOut (mainOut Wok)).fields ≠ (mainOut Wok).fields :=
  ⟨by decide, by decide, by decide, by decide, by decide, by decide⟩

/-- Witness for the amended claim C1 on the two-sweep volume `Wok`. -/
theorem claim_C1_witness :
    WF Wok 2 ∧ (refAz Wok).length ≠ 361 ∧
    ((mainOut (mainOut Wok)).azimuth = (mainOut Wok).azimuth ∧
     (mainOut (mainOut Wok)).elevation = (mainOut Wok).elevation ∧
     (mainOut (mainOut Wok)).nrays = (mainOut Wok).nrays ∧
     (mainOut (mainOut Wok)).sweep_start_ray_index =
       (mainOut Wok).sweep_start_ray_index ∧
     (mainOut (mainOut Wok)).sweep_end_ray_index =
       (mainOut Wok).sweep_end_ray_index ∧
     List.Forall₂ (fun p q : String × Field =>
       q.1 = p.1 ∧ q.2.dtype = p.2.dtype ∧ matData q.2.data = matData p.2.data)
       (mainOut Wok).fields (mainOut (mainOut Wok)).fields) :=
  ⟨by decide, by decide,
    claim_C1 Wok 2 (mainOut Wok) (mainOut (mainOut Wok)) (by decide) (by decide)
      (by decide) (by decide)⟩

end SortRadar
